import Mathlib

/-!
Verification of the DMAP binary codec in `src/pydarn/pydmap/io.py`
(classes `DmapRead` and `DmapWrite`).

Modelling conventions:
* a byte buffer (`bytearray`) is a `List Nat` of byte values;
* machine integers read with `struct.unpack` are modelled little-endian,
  signed values via two's complement on the `8*w`-bit pattern;
* Python floats are modelled by their IEEE bit pattern (a `Nat` of the
  payload width): `struct.pack`/`struct.unpack` preserve the bit pattern,
  so record equality coincides with bit-pattern equality;
* Python strings (field names, string scalars) are modelled as `String`
  whose characters are the byte values; this is exact for the ASCII
  strings the well-formedness predicates below restrict to;
* Python exceptions are an error type `DmapError`; exceptions that escape
  from library internals (`IndexError`, `ValueError`, `KeyError`) get
  their own constructors.
-/

/-- Little-endian value of a byte list: `leVal [b0, b1, ...] = b0 + 256*b1 + ...`. -/
def leVal : List Nat → Nat
  | [] => 0
  | b :: rest => b + 256 * leVal rest

/-- The `w` little-endian bytes of `n` (the bytes `struct.pack` emits for an
in-range value of a `w`-byte integer format). -/
def toLE : Nat → Nat → List Nat
  | 0, _ => []
  | w + 1, n => n % 256 :: toLE w (n / 256)

/-- Reads the `w`-byte little-endian unsigned value at offset `c` of `buf`
(the core of `struct.unpack_from`). -/
def readLE (buf : List Nat) (c w : Nat) : Nat :=
  leVal ((buf.drop c).take w)

/-- Two's-complement reinterpretation of a `w`-byte pattern as a signed value,
as `struct.unpack` does for the signed formats. -/
def toSigned (w n : Nat) : Int :=
  if 2 * n < 2 ^ (8 * w) then (n : Int) else (n : Int) - 2 ^ (8 * w)

/-- Bytes of Python `chr(n).encode(&quot;utf-8&quot;)` for `n < 2048`; every reachable
use has `n < 256` (type-code bytes and `CHAR` payloads). -/
def chrUtf8 (n : Nat) : List Nat :=
  if n < 128 then [n] else [192 + n / 64, 128 + n % 64]

/-- Byte values of a Python string, one byte per character (exact for the
ASCII strings all well-formed names and string values are restricted to). -/
def strToBytes (s : String) : List Nat :=
  s.data.map Char.toNat

/-- Python `bytes.decode` of a NUL-free byte run, modelled characterwise. -/
def bytesToStr (l : List Nat) : String :=
  ⟨l.map Char.ofNat⟩

/-- The error kinds of the codec: each constructor corresponds to one of the
`pydmap_exceptions` classes raised in `io.py` (with a `String` tag telling the
`DmapDataError` message families apart), plus the Python builtin exceptions
that escape from library calls on some paths. -/
inductive DmapError where
  | emptyFile : DmapError
  | cursorError (cursor : Nat) : DmapError
  | zeroByte (cursor : Nat) : DmapError
  | negativeByte (cursor : Nat) : DmapError
  | mismatchByte (cursor : Nat) : DmapError
  | dmapDataTypeError (code : Nat) (cursor : Nat) : DmapError
  | dmapDataError (tag : String) : DmapError
  | fieldMissing (recNum : Nat) (fields : Finset String) : DmapError
  | fieldExtra (recNum : Nat) (fields : Finset String) : DmapError
  | formatError (recNum : Nat) : DmapError
  | pyIndexError : DmapError
  | pyValueError : DmapError
  | pyKeyError : DmapError
  | structError : DmapError
  | fuelExhausted : DmapError
  deriving DecidableEq

/-- A decoded value: the possible results of `DmapRead.read_data`, split by
the `struct` format character family. Floats are carried as bit patterns. -/
inductive DmapVal where
  | vchar (b : Nat) : DmapVal
  | vint (v : Int) : DmapVal
  | vuint (n : Nat) : DmapVal
  | vfloat (bits : Nat) : DmapVal
  | vstr (s : String) : DmapVal
  deriving DecidableEq, Repr

/-- Extracts the signed-integer payload (structural reads of `block_size`,
counts and dimensions all go through `read_data` with format `i`). -/
def DmapVal.asInt : DmapVal → Int
  | .vint v => v
  | .vchar b => (b : Int)
  | .vuint n => (n : Int)
  | _ => 0

/-- Extracts the raw byte payload of a `c`-format read. -/
def DmapVal.asNat : DmapVal → Nat
  | .vchar b => b
  | .vuint n => n
  | _ => 0

/-- Extracts the string payload of an `s`-format read. -/
def DmapVal.asStr : DmapVal → String
  | .vstr s => s
  | _ => ""

/-- Equality of modelled outcomes is decidable (used by the concrete
witness and counterexample evaluations). -/
instance {ε α : Type} [DecidableEq ε] [DecidableEq α] : DecidableEq (Except ε α) :=
  fun x y =>
    match x, y with
    | .error e1, .error e2 =>
      if h : e1 = e2 then isTrue (by rw [h]) else
        isFalse (fun hh => by cases hh; exact h rfl)
    | .error _, .ok _ => isFalse (fun hh => by cases hh)
    | .ok _, .error _ => isFalse (fun hh => by cases hh)
    | .ok a1, .ok a2 =>
      if h : a1 = a2 then isTrue (by rw [h]) else
        isFalse (fun hh => by cases hh; exact h rfl)

/-- The `DmapScalar` namedtuple: `(name, value, data_type, data_type_fmt)`. -/
structure DmapScalar where
  name : String
  value : DmapVal
  data_type : Nat
  data_type_fmt : String
  deriving DecidableEq, Repr

/-- Value buffer of a `DmapArray`: numeric arrays are the flat cell list as
bit patterns (`np.frombuffer` reinterprets bytes), string/char arrays are the
element-by-element `read_data` results of `read_string_array`. -/
inductive ArrayVal where
  | cells (cs : List Nat) : ArrayVal
  | svals (vs : List DmapVal) : ArrayVal
  deriving DecidableEq, Repr

/-- The `DmapArray` namedtuple:
`(name, value, data_type, data_type_fmt, dimension, shape)`. -/
structure DmapArray where
  name : String
  value : ArrayVal
  data_type : Nat
  data_type_fmt : String
  dimension : Int
  shape : List Int
  deriving DecidableEq, Repr

/-- One entry of a dmap record's ordered dictionary. -/
inductive DmapField where
  | scalar (s : DmapScalar) : DmapField
  | array (a : DmapArray) : DmapField
  deriving DecidableEq, Repr

/-- The key under which the field is stored in the record's `OrderedDict`. -/
def DmapField.name : DmapField → String
  | .scalar s => s.name
  | .array a => a.name

/-- A dmap record: the `OrderedDict` as a list of fields in insertion order. -/
abbrev DmapRecord := List DmapField

/-- `OrderedDict` assignment `record[f.name] = f`: replace in place when the
key exists, append otherwise. -/
def odInsert (r : DmapRecord) (f : DmapField) : DmapRecord :=
  if (r.map DmapField.name).contains f.name then
    r.map (fun g => if g.name = f.name then f else g)
  else r ++ [f]

/-- `DMAP = 0`, the reserved/structural type code. -/
def DMAP : Nat := 0

/-- The `DMAP_DATA_TYPES` registry: type code to (struct format, byte size). -/
def DMAP_DATA_TYPES (t : Nat) : Option (String × Nat) :=
  if t = 0 then some (("", 0))
  else if t = 1 then some (("c", 1))
  else if t = 2 then some (("h", 2))
  else if t = 3 then some (("i", 4))
  else if t = 4 then some (("f", 4))
  else if t = 8 then some (("d", 8))
  else if t = 9 then some (("s", 1))
  else if t = 10 then some (("q", 8))
  else if t = 16 then some (("B", 1))
  else if t = 17 then some (("H", 2))
  else if t = 18 then some (("I", 4))
  else if t = 19 then some (("Q", 8))
  else none

/-- Format character of a registered type code. -/
def fmtOfType (t : Nat) : String :=
  ((DMAP_DATA_TYPES t).getD ("", 0)).1

/-- Byte width of a registered type code. -/
def widthOfType (t : Nat) : Nat :=
  ((DMAP_DATA_TYPES t).getD ("", 0)).2

/-- Index of the first zero byte (the NUL scan of `read_data`'s string
branch; running off the end of the `bytearray` raises `IndexError`). -/
def findZero : List Nat → Option Nat
  | [] => none
  | b :: rest => if b = 0 then some 0 else (findZero rest).map (· + 1)

/-- `DmapRead.read_data(data_type_fmt, data_fmt_bytes)`: bounds checks, then
one value read at the cursor, returning the value and the advanced cursor.
The final catch-all models `struct.unpack_from` with the empty format string
of type code 0: it returns an empty tuple and `data[0]` raises `IndexError`. -/
def read_data (buf : List Nat) (cursor : Nat) (fmt : String) (w : Nat) :
    Except DmapError (DmapVal × Nat) :=
  if buf.length ≤ cursor then .error (.cursorError cursor)
  else if buf.length - cursor < w then .error (.cursorError cursor)
  else if fmt = ("c") then .ok (.vchar (buf.getD cursor 0), cursor + w)
  else if fmt = ("s") then
    match findZero (buf.drop cursor) with
    | none => .error .pyIndexError
    | some k =>
      if buf.length < cursor + k then .error (.mismatchByte (cursor + k))
      else .ok (.vstr (bytesToStr ((buf.drop cursor).take k)), cursor + k + 1)
  else if fmt = ("h") ∨ fmt = ("i") ∨ fmt = ("q") then
    .ok (.vint (toSigned w (readLE buf cursor w)), cursor + w)
  else if fmt = ("f") ∨ fmt = ("d") then
    .ok (.vfloat (readLE buf cursor w), cursor + w)
  else if fmt = ("B") ∨ fmt = ("H") ∨ fmt = ("I") ∨ fmt = ("Q") then
    .ok (.vuint (readLE buf cursor w), cursor + w)
  else .error .pyIndexError

/-- `DmapRead.zero_negative_check`: zero raises `ZeroByteError`, negative
raises `NegativeByteError`. -/
def zero_negative_check (x : Int) (cursor : Nat) : Except DmapError Unit :=
  if x = 0 then .error (.zeroByte cursor)
  else if x < 0 then .error (.negativeByte cursor)
  else .ok ()

/-- `DmapRead.bytes_check`: raises `MismatchByteError` when
`element > byte_check`. -/
def bytes_check (element byteCheck : Int) (cursor : Nat) : Except DmapError Unit :=
  if element > byteCheck then .error (.mismatchByte cursor) else .ok ()

/-- Python `!=` between a `str` and an `int` is always `True`: io.py:466
compares `scalar_type_fmt` (a format string) with `DMAP` (the int 0), so the
reserved-scalar-type error branch of `read_scalar` is unreachable. -/
def pyStrIntNeq (_fmt : String) (_n : Nat) : Bool := true

/-- `DmapRead.read_scalar`: name, 1-byte type code, registry check, then the
payload read dispatched on the registry format. -/
def read_scalar (buf : List Nat) (c : Nat) :
    Except DmapError (DmapScalar × Nat) :=
  match read_data buf c ("s") 1 with
  | .error e => .error e
  | .ok (nv, c1) =>
    match read_data buf c1 ("c") 1 with
    | .error e => .error e
    | .ok (tv, c2) =>
      let scalar_name := nv.asStr
      let scalar_type := tv.asNat
      match DMAP_DATA_TYPES scalar_type with
      | none => .error (.dmapDataTypeError scalar_type c2)
      | some (fmt, w) =>
        if pyStrIntNeq fmt DMAP then
          match read_data buf c2 fmt w with
          | .error e => .error e
          | .ok (v, c3) => .ok (⟨scalar_name, v, scalar_type, fmt⟩, c3)
        else .error (.dmapDataError ("scalar_dmap_type"))

/-- Reads `n` consecutive values with `read_data` (the element loop of
`read_string_array`). -/
def readElems (buf : List Nat) (fmt : String) (w : Nat) :
    Nat → Nat → Except DmapError (List DmapVal × Nat)
  | 0, c => .ok ([], c)
  | n + 1, c =>
    match read_data buf c fmt w with
    | .error e => .error e
    | .ok (v, c1) =>
      match readElems buf fmt w n c1 with
      | .error e => .error e
      | .ok (vs, c2) => .ok (v :: vs, c2)

/-- `DmapRead.read_string_array`: `for dim_size in shape: for i in
range(dim_size): data.append(read_data(...))` — note it reads the SUM of the
dimension sizes, not their product. -/
def read_string_array (buf : List Nat) (fmt : String) (w : Nat) :
    List Int → Nat → Except DmapError (List DmapVal × Nat)
  | [], c => .ok ([], c)
  | d :: rest, c =>
    match readElems buf fmt w d.toNat c with
    | .error e => .error e
    | .ok (vs1, c1) =>
      match read_string_array buf fmt w rest c1 with
      | .error e => .error e
      | .ok (vs2, c2) => .ok (vs1 ++ vs2, c2)

/-- Splits the byte run starting at a buffer's head into `n` cells of `w`
bytes, as the little-endian bit patterns `np.frombuffer` reinterprets. -/
def cellsOf (bytes : List Nat) (w : Nat) : Nat → List Nat
  | 0 => []
  | n + 1 => leVal (bytes.take w) :: cellsOf (bytes.drop w) w n

/-- `DmapRead.read_numerical_array`: `np.frombuffer` over
`total_number_cells` cells then a cursor jump of `cells * width`.
`np.frombuffer` raises `ValueError` when fewer than `count * itemsize` bytes
remain; a negative count (reachable only through a `slist` array with a
negative dimension, touched by no claim) makes numpy consume the whole
remaining buffer and is mapped to the error as a modelling boundary. -/
def read_numerical_array (buf : List Nat) (c : Nat) (total : Int) (w : Nat) :
    Except DmapError (List Nat × Nat) :=
  if total < 0 then .error .pyValueError
  else if buf.length < c + total.toNat * w then .error .pyValueError
  else .ok (cellsOf (buf.drop c) w total.toNat, c + total.toNat * w)

/-- Reads `n` consecutive 4-byte integers (the shape loop of `read_array`). -/
def readI32s (buf : List Nat) : Nat → Nat → Except DmapError (List Int × Nat)
  | 0, c => .ok ([], c)
  | n + 1, c =>
    match read_data buf c ("i") 4 with
    | .error e => .error e
    | .ok (v, c1) =>
      match readI32s buf n c1 with
      | .error e => .error e
      | .ok (vs, c2) => .ok (v.asInt :: vs, c2)

/-- `DmapRead.read_array`: name, type code, dimension count (checked against
the record size and against zero), the wire shape reversed into logical
order, the shape validations, then the value read (elementwise for string and
char formats, one bulk `np.frombuffer` otherwise, an error for type `DMAP`). -/
def read_array (buf : List Nat) (c : Nat) (record_size : Int) :
    Except DmapError (DmapArray × Nat) :=
  match read_data buf c ("s") 1 with
  | .error e => .error e
  | .ok (nv, c1) =>
    match read_data buf c1 ("c") 1 with
    | .error e => .error e
    | .ok (tv, c2) =>
      let array_name := nv.asStr
      let array_type := tv.asNat
      match DMAP_DATA_TYPES array_type with
      | none => .error (.dmapDataTypeError array_type c2)
      | some (fmt, w) =>
        match read_data buf c2 ("i") 4 with
        | .error e => .error e
        | .ok (dv, c3) =>
          let dim := dv.asInt
          match bytes_check dim record_size c3 with
          | .error e => .error e
          | .ok _ =>
            match zero_negative_check dim c3 with
            | .error e => .error e
            | .ok _ =>
              match readI32s buf dim.toNat c3 with
              | .error e => .error e
              | .ok (wireShape, c4) =>
                let array_shape := wireShape.reverse
                if array_shape.length ≠ dim.toNat then
                  .error (.dmapDataError ("shape_read"))
                else if (∃ x ∈ array_shape, x ≤ 0) ∧ array_name ≠ ("slist") then
                  .error (.dmapDataError ("zero_dimension"))
                else if ∃ x ∈ array_shape, record_size ≤ x then
                  .error (.dmapDataError ("dim_record_size"))
                else
                  let total := array_shape.foldl (fun acc d => acc * d) 1
                  match bytes_check total record_size c4 with
                  | .error e => .error e
                  | .ok _ =>
                    match bytes_check (total * w) record_size c4 with
                    | .error e => .error e
                    | .ok _ =>
                      if fmt = ("s") ∨ fmt = ("c") then
                        match read_string_array buf fmt w array_shape c4 with
                        | .error e => .error e
                        | .ok (vs, c5) =>
                          .ok (⟨array_name, .svals vs, array_type, fmt,
                                dim, array_shape⟩, c5)
                      else if array_type = DMAP then
                        .error (.dmapDataError ("array_dmap_type"))
                      else
                        match read_numerical_array buf c4 total w with
                        | .error e => .error e
                        | .ok (cs, c5) =>
                          .ok (⟨array_name, .cells cs, array_type, fmt,
                                dim, array_shape⟩, c5)

/-- The scalar loop of `read_record`: `num_scalars` reads inserted into the
ordered dictionary in read order. -/
def readScalarLoop (buf : List Nat) :
    Nat → Nat → DmapRecord → Except DmapError (DmapRecord × Nat)
  | 0, c, rec => .ok (rec, c)
  | n + 1, c, rec =>
    match read_scalar buf c with
    | .error e => .error e
    | .ok (s, c1) => readScalarLoop buf n c1 (odInsert rec (.scalar s))

/-- The array loop of `read_record`. -/
def readArrayLoop (buf : List Nat) (record_size : Int) :
    Nat → Nat → DmapRecord → Except DmapError (DmapRecord × Nat)
  | 0, c, rec => .ok (rec, c)
  | n + 1, c, rec =>
    match read_array buf c record_size with
    | .error e => .error e
    | .ok (a, c1) => readArrayLoop buf record_size n c1 (odInsert rec (.array a))

/-- `DmapRead.read_record`: skip the 4-byte encoding identifier, read and
check `block_size` (against the remaining bytes plus 8, then against zero),
read and check `num_scalars` and `num_arrays`, run the two loops, and verify
the cursor advanced by exactly `block_size`. -/
def read_record (buf : List Nat) (c : Nat) :
    Except DmapError (DmapRecord × Nat) :=
  let start := c
  match read_data buf (c + 4) ("i") 4 with
  | .error e => .error e
  | .ok (bv, c1) =>
    let block_size := bv.asInt
    let remaining : Int := (buf.length : Int) - c1 + 8
    match bytes_check block_size remaining c1 with
    | .error e => .error e
    | .ok _ =>
      match zero_negative_check block_size c1 with
      | .error e => .error e
      | .ok _ =>
        match read_data buf c1 ("i") 4 with
        | .error e => .error e
        | .ok (nsv, c2) =>
          match read_data buf c2 ("i") 4 with
          | .error e => .error e
          | .ok (nav, c3) =>
            let num_scalars := nsv.asInt
            let num_arrays := nav.asInt
            match zero_negative_check num_scalars c3 with
            | .error e => .error e
            | .ok _ =>
              match zero_negative_check num_arrays c3 with
              | .error e => .error e
              | .ok _ =>
                match bytes_check (num_scalars + num_arrays) block_size c3 with
                | .error e => .error e
                | .ok _ =>
                  match readScalarLoop buf num_scalars.toNat c3 [] with
                  | .error e => .error e
                  | .ok (rec, c4) =>
                    match readArrayLoop buf block_size num_arrays.toNat c4 rec with
                    | .error e => .error e
                    | .ok (rec2, c5) =>
                      if ((c5 : Int) - (start : Int)) ≠ block_size then
                        .error (.cursorError c5)
                      else .ok (rec2, c5)

/-- The `while self.cursor < self.dmap_end_bytes` loop of `read_records`,
with explicit fuel (each successful record advances the cursor by its
positive `block_size`, so `buf.length + 1` fuel always suffices). -/
def readRecordsAux (buf : List Nat) :
    Nat → Nat → List DmapRecord → Except DmapError (List DmapRecord × Nat)
  | 0, _, _ => .error .fuelExhausted
  | fuel + 1, c, acc =>
    if c < buf.length then
      match read_record buf c with
      | .error e => .error e
      | .ok (r, c1) => readRecordsAux buf fuel c1 (acc ++ [r])
    else .ok (acc, c)

/-- `DmapRead.read_records`: record loop from offset 0, then the final
`bytes_check(cursor, dmap_end_bytes)`. -/
def read_records (buf : List Nat) : Except DmapError (List DmapRecord) :=
  match readRecordsAux buf (buf.length + 1) 0 [] with
  | .error e => .error e
  | .ok (recs, c) =>
    if (buf.length : Int) < c then .error (.mismatchByte c) else .ok recs

/-- The whole read path: `DmapRead.__init__` rejects an empty buffer with
`EmptyFileError`, then `read_records` decodes it. -/
def dmapRead (buf : List Nat) : Except DmapError (List DmapRecord) :=
  if buf.length = 0 then .error .emptyFile else read_records buf

/-- The block walk of `test_initial_data_integrity`: skip 4 bytes, read
`block_size`, check it against zero, accumulate it, check the running total
against the buffer length, jump by `block_size - 8`; returns the accumulated
total and the final cursor. -/
def prescanAux (buf : List Nat) :
    Nat → Nat → Nat → Except DmapError (Nat × Nat)
  | 0, _, _ => .error .fuelExhausted
  | fuel + 1, c, total =>
    if c < buf.length then
      match read_data buf (c + 4) ("i") 4 with
      | .error e => .error e
      | .ok (bv, c1) =>
        let block_size := bv.asInt
        match zero_negative_check block_size c1 with
        | .error e => .error e
        | .ok _ =>
          let total1 := total + block_size.toNat
          match bytes_check (total1 : Int) (buf.length : Int) c1 with
          | .error e => .error e
          | .ok _ => prescanAux buf fuel (c1 + block_size.toNat - 8) total1
    else .ok (total, c)

/-- `DmapRead.test_initial_data_integrity`: `CursorError` unless the cursor
is at 0, then the block walk, then `DmapDataError` unless the accumulated
total equals the buffer length exactly. -/
def test_initial_data_integrity (buf : List Nat) (cursor : Nat) :
    Except DmapError Unit :=
  if cursor ≠ 0 then .error (.cursorError cursor)
  else
    match prescanAux buf (buf.length + 1) 0 0 with
    | .error e => .error e
    | .ok (total, _) =>
      if total ≠ buf.length then .error (.dmapDataError ("corrupt_total_mismatch"))
      else .ok ()

/-- Bytes of `struct.pack` for a 4-byte signed integer. `struct.pack` raises
`struct.error` outside `[-2^31, 2^31)`; the model wraps instead, and every
theorem that touches the encoder constrains the inputs (through the
well-formedness predicates below) to the in-range regime where wrapping is
the identity. -/
def packI32 (v : Int) : List Nat :=
  toLE 4 ((v % ((2 : Int) ^ 32)).toNat)

/-- Byte width of a struct format character (as `struct.pack` sizes it). -/
def fmtWidth : String → Nat
  | "c" => 1
  | "B" => 1
  | "s" => 1
  | "h" => 2
  | "H" => 2
  | "i" => 4
  | "I" => 4
  | "f" => 4
  | "q" => 8
  | "Q" => 8
  | "d" => 8
  | _ => 0

/-- The value bytes of `dmap_scalar_to_bytes`: a NUL-terminated string for
format `s`, `chr(value).encode()` for format `c`, `struct.pack` otherwise
(fixed-width values wrap as in `packI32`; the empty-list fallbacks are
type-confusion cases where Python raises, excluded by well-formedness). -/
def scalarPayload (s : DmapScalar) : List Nat :=
  if s.data_type_fmt = ("s") then
    match s.value with
    | .vstr str => strToBytes str ++ [0]
    | _ => []
  else if s.data_type_fmt = ("c") then
    match s.value with
    | .vchar b => chrUtf8 b
    | _ => []
  else
    let w := fmtWidth s.data_type_fmt
    match s.value with
    | .vint v => toLE w ((v % ((2 : Int) ^ (8 * w))).toNat)
    | .vuint n => toLE w (n % 2 ^ (8 * w))
    | .vfloat bits => toLE w (bits % 2 ^ (8 * w))
    | _ => []

/-- `DmapWrite.dmap_scalar_to_bytes`: NUL-terminated name, the 1-byte type
code (`chr(data_type).encode()`), then the value bytes. -/
def dmap_scalar_to_bytes (s : DmapScalar) : List Nat :=
  strToBytes s.name ++ [0] ++ chrUtf8 s.data_type ++ scalarPayload s

/-- `array.value.tostring()`: the raw bytes of the flat numpy buffer, `w`
little-endian bytes per cell. For a string/object array `tostring` emits
numpy's internal representation, not DMAP wire format; string arrays are
excluded by well-formedness and encoded by no theorem, so that branch is
left empty. -/
def arrayDataBytes (a : DmapArray) : List Nat :=
  match a.value with
  | .cells cs => (cs.map (toLE (fmtWidth a.data_type_fmt))).flatten
  | .svals _ => []

/-- `DmapWrite.dmap_array_to_bytes`: NUL-terminated name, 1-byte type code,
4-byte dimension count, then `for size in array.shape: pack(&quot;i&quot;, size)` —
the shape is written in its stored (logical) order, WITHOUT the reversal the
decoder applies — then the flat data bytes. -/
def dmap_array_to_bytes (a : DmapArray) : List Nat :=
  strToBytes a.name ++ [0] ++ chrUtf8 a.data_type ++ packI32 a.dimension
    ++ (a.shape.map packI32).flatten ++ arrayDataBytes a

/-- Dispatch of `__dmap_record_to_bytes` on the field kind. -/
def fieldBytes : DmapField → List Nat
  | .scalar s => dmap_scalar_to_bytes s
  | .array a => dmap_array_to_bytes a

/-- `num_scalars` counted by `__dmap_record_to_bytes`. -/
def countScalars (r : DmapRecord) : Nat :=
  r.countP (fun f => match f with | .scalar _ => true | .array _ => false)

/-- `num_arrays` counted by `__dmap_record_to_bytes`. -/
def countArrays (r : DmapRecord) : Nat :=
  r.countP (fun f => match f with | .scalar _ => false | .array _ => true)

/-- `DmapWrite.__dmap_record_to_bytes`: field bytes in insertion order,
prefixed by the encoding identifier 65537, `block_size = len(data) + 16`,
and the two counts. -/
def dmap_record_to_bytes (r : DmapRecord) : List Nat :=
  let data := (r.map fieldBytes).flatten
  packI32 65537 ++ packI32 ((data.length : Int) + 16)
    ++ packI32 (countScalars r) ++ packI32 (countArrays r) ++ data

/-- `DmapWrite.dmap_records_to_bytes`: all records, in input order, into one
growing buffer. -/
def dmap_records_to_bytes (recs : List DmapRecord) : List Nat :=
  (recs.map dmap_record_to_bytes).flatten

/-- `DmapWrite.write_dmap_stream(dmap_records)` for an instance whose
`self.dmap_records` is `instRecs`: the argument is adopted ONLY when the
instance's list is empty (io.py:1087-1088), then the empty-record check,
then the raw unvalidated record encoding. -/
def write_dmap_stream (instRecs argRecs : List DmapRecord) :
    Except DmapError (List Nat) :=
  let recs := if instRecs = [] then argRecs else instRecs
  if recs = [] then .error (.dmapDataError ("empty_records"))
  else .ok (dmap_records_to_bytes recs)

/-- A product-format field table (`superdarn_formats` dict): field name to
required struct format character. -/
abbrev Schema := List (String × String)

/-- The key set of a schema dict. -/
def schemaKeys (fs : Schema) : Finset String :=
  (fs.map Prod.fst).toFinset

/-- The key set of a record's ordered dictionary. -/
def recordKeys (r : DmapRecord) : Finset String :=
  (r.map DmapField.name).toFinset

/-- `DmapWrite.dict_key_diff`: set difference of the key sets. -/
def dict_key_diff (d1 d2 : Finset String) : Finset String :=
  d1 \ d2

/-- `DmapWrite.dict_list2set`: union of the key sets of all the dicts
(`set.union(*sets)`; the Python call requires a non-empty list, which every
caller supplies). -/
def dict_list2set (l : List Schema) : Finset String :=
  (l.map schemaKeys).foldr (· ∪ ·) ∅

/-- `DmapWrite.missing_field_check`: per group, the difference of the group
against the record's keys intersected with the complete field set; a group
whose difference is neither empty nor the whole group contributes its
difference to the missing set, and a non-empty missing set raises
`SuperDARNFieldMissing`. -/
def missing_field_check (file_struct_list : List Schema) (record : DmapRecord)
    (rec_num : Nat) : Except DmapError Unit :=
  let complete_set := dict_list2set file_struct_list
  let missing_fields := file_struct_list.foldl (fun acc fs =>
    let diff_fields := dict_key_diff (schemaKeys fs) (recordKeys record ∩ complete_set)
    if diff_fields.card = 0 ∨ diff_fields.card = (schemaKeys fs).card then acc
    else acc ∪ diff_fields) ∅
  if 0 < missing_fields.card then .error (.fieldMissing rec_num missing_fields)
  else .ok ()

/-- `DmapWrite.extra_field_check`: record keys outside the union of all
groups raise `SuperDARNFieldExtra`. -/
def extra_field_check (file_struct_list : List Schema) (record : DmapRecord)
    (rec_num : Nat) : Except DmapError Unit :=
  let file_struct := dict_list2set file_struct_list
  let extra_fields := dict_key_diff (recordKeys record) file_struct
  if 0 < extra_fields.card then .error (.fieldExtra rec_num extra_fields)
  else .ok ()

/-- The struct format stored with a field. -/
def fieldFmt : DmapField → String
  | .scalar s => s.data_type_fmt
  | .array a => a.data_type_fmt

/-- `DmapWrite.incorrect_types_check`: merge the groups (later groups
override), look every record field up (`complete_dict[param]` raises
`KeyError` when absent — the pipeline runs `extra_field_check` first, which
rules that out), and raise `SuperDARNDataFormatError` when any stored
`data_type_fmt` differs from the declared one. -/
def incorrect_types_check (file_struct_list : List Schema) (record : DmapRecord)
    (rec_num : Nat) : Except DmapError Unit :=
  let complete_dict := file_struct_list.flatten.reverse
  if record.any (fun f => (complete_dict.lookup f.name).isNone) then
    .error .pyKeyError
  else if record.any
      (fun f => ((complete_dict.lookup f.name).getD ("")) != fieldFmt f) then
    .error (.formatError rec_num)
  else .ok ()

/-- `DmapWrite.superDARN_file_structure_to_bytes`: per record, the extra,
missing and type checks, then the record's bytes. -/
def superDARN_file_structure_to_bytes (file_struct_list : List Schema) :
    List DmapRecord → Nat → Except DmapError (List Nat)
  | [], _ => .ok []
  | r :: rest, rec_num =>
    match extra_field_check file_struct_list r rec_num with
    | .error e => .error e
    | .ok _ =>
      match missing_field_check file_struct_list r rec_num with
      | .error e => .error e
      | .ok _ =>
        match incorrect_types_check file_struct_list r rec_num with
        | .error e => .error e
        | .ok _ =>
          match superDARN_file_structure_to_bytes file_struct_list rest (rec_num + 1) with
          | .error e => .error e
          | .ok bs => .ok (dmap_record_to_bytes r ++ bs)

/-- `DmapWrite.write_rawacf_stream(rawacf_data)`: a NON-empty argument
replaces the instance's records (io.py:909-910) — the opposite convention
from `write_dmap_stream` — then the empty check and the schema-validated
encoding. Modelled from the spec: the `superdarn_formats.Rawacf.types`
table is external configuration living outside src/, so the schema is a
parameter here. -/
def write_rawacf_stream (rawacfTypes : Schema) (instRecs argRecs : List DmapRecord) :
    Except DmapError (List Nat) :=
  let recs := if argRecs ≠ [] then argRecs else instRecs
  if recs = [] then .error (.dmapDataError ("empty_records"))
  else superDARN_file_structure_to_bytes [rawacfTypes] recs 0

/-- ASCII, NUL-free text: precisely the strings whose Python `utf-8`
encode/decode is the byte-per-character map of the model. -/
def validAscii (s : String) : Prop :=
  ∀ ch ∈ s.data, 0 < ch.toNat ∧ ch.toNat < 128

instance (s : String) : Decidable (validAscii s) := by
  unfold validAscii; infer_instance

/-- A stored value consistent with the struct format it will be packed with,
restricted to the range where `struct.pack` succeeds (and the model's
wrapping is the identity). -/
def wfValue : String → Nat → DmapVal → Prop
  | fmt, _, .vchar b => fmt = ("c") ∧ b < 128
  | fmt, w, .vint v =>
      (fmt = ("h") ∨ fmt = ("i") ∨ fmt = ("q")) ∧
      -((2 : Int) ^ (8 * w - 1)) ≤ v ∧ v < (2 : Int) ^ (8 * w - 1)
  | fmt, w, .vuint n =>
      (fmt = ("B") ∨ fmt = ("H") ∨ fmt = ("I") ∨ fmt = ("Q")) ∧ n < 2 ^ (8 * w)
  | fmt, w, .vfloat bits => (fmt = ("f") ∨ fmt = ("d")) ∧ bits < 2 ^ (8 * w)
  | fmt, _, .vstr s => fmt = ("s") ∧ validAscii s

instance (fmt : String) (w : Nat) (v : DmapVal) : Decidable (wfValue fmt w v) := by
  cases v <;> (simp only [wfValue]; infer_instance)

/-- A scalar the codec round-trips: registered non-reserved type, ASCII
name, the format/width of the registry, and a matching in-range value. -/
def wfScalar (s : DmapScalar) : Prop :=
  DMAP_DATA_TYPES s.data_type ≠ none ∧ s.data_type ≠ DMAP ∧
  validAscii s.name ∧ s.data_type_fmt = fmtOfType s.data_type ∧
  wfValue s.data_type_fmt (widthOfType s.data_type) s.value

instance (s : DmapScalar) : Decidable (wfScalar s) := by
  unfold wfScalar; infer_instance

/-- The fixed-width numeric type codes (everything except the reserved 0,
`CHAR` 1 and `STRING` 9, whose array paths are broken in the source). -/
def numericType (t : Nat) : Prop :=
  t = 2 ∨ t = 3 ∨ t = 4 ∨ t = 8 ∨ t = 10 ∨ t = 16 ∨ t = 17 ∨ t = 18 ∨ t = 19

instance (t : Nat) : Decidable (numericType t) := by
  unfold numericType; infer_instance

/-- Cell count of a logical shape. -/
def prodNat (shape : List Int) : Nat :=
  (shape.map Int.toNat).prod

/-- The flat cell list of a numeric array value (junk for string arrays). -/
def ArrayVal.cellsD : ArrayVal → List Nat
  | .cells cs => cs
  | .svals _ => []

/-- Whether the value is a flat numeric buffer. -/
def ArrayVal.isCells : ArrayVal → Bool
  | .cells _ => true
  | .svals _ => false

/-- An array the codec round-trips (up to the shape reversal): numeric
registered type, ASCII name, dimension equal to the shape's length, positive
in-range dimension sizes (or the `slist` zero-gates sentinel `[0]`), and a
flat cell buffer of the right length with in-width bit patterns. -/
def wfArray (a : DmapArray) : Prop :=
  numericType a.data_type ∧ validAscii a.name ∧
  a.data_type_fmt = fmtOfType a.data_type ∧
  a.dimension = (a.shape.length : Int) ∧ a.shape ≠ [] ∧
  ((∀ d ∈ a.shape, 0 < d) ∨ (a.name = ("slist") ∧ a.shape = [0])) ∧
  (∀ d ∈ a.shape, d < (2 : Int) ^ 31) ∧
  a.value.isCells = true ∧ a.value.cellsD.length = prodNat a.shape ∧
  ∀ x ∈ a.value.cellsD, x < 2 ^ (8 * widthOfType a.data_type)

instance (a : DmapArray) : Decidable (wfArray a) := by
  unfold wfArray; infer_instance

/-- Scalar-field well-formedness (false on array fields). -/
def fieldWfScalar : DmapField → Prop
  | .scalar s => wfScalar s
  | .array _ => False

instance (f : DmapField) : Decidable (fieldWfScalar f) := by
  cases f <;> (simp only [fieldWfScalar]; infer_instance)

/-- Array-field well-formedness (false on scalar fields). -/
def fieldWfArray : DmapField → Prop
  | .scalar _ => False
  | .array a => wfArray a

instance (f : DmapField) : Decidable (fieldWfArray f) := by
  cases f <;> (simp only [fieldWfArray]; infer_instance)

/-- Whether a field is a scalar. -/
def DmapField.isScalarB : DmapField → Bool
  | .scalar _ => true
  | .array _ => false

/-- A record the codec round-trips: at least one well-formed scalar followed
by at least one well-formed array (the decoder reads all scalars before all
arrays, and rejects a zero count of either), distinct field names, and a
wire size within the signed 32-bit `block_size`. -/
def wfRecord (r : DmapRecord) : Prop :=
  r.takeWhile DmapField.isScalarB ≠ [] ∧
  r.dropWhile DmapField.isScalarB ≠ [] ∧
  (∀ f ∈ r.takeWhile DmapField.isScalarB, fieldWfScalar f) ∧
  (∀ f ∈ r.dropWhile DmapField.isScalarB, fieldWfArray f) ∧
  (r.map DmapField.name).Nodup ∧
  (r.map fieldBytes).flatten.length + 16 < 2 ^ 31

instance (r : DmapRecord) : Decidable (wfRecord r) := by
  unfold wfRecord; infer_instance

/-- Reverses an array's logical shape (what one encode-decode round trip
does to every array, since `dmap_array_to_bytes` does not mirror the
decoder's reversal). -/
def revShape : DmapField → DmapField
  | .scalar s => .scalar s
  | .array a => .array { a with shape := a.shape.reverse }

/-- One whole-record shape reversal. -/
def revRecord (r : DmapRecord) : DmapRecord :=
  r.map revShape

/-- The spec's description of the missing-field rule, for comparison with
`missing_field_check`: the union, over the groups whose difference against
the record's keys intersected with the complete field set is neither empty
nor the whole group, of those differences. -/
def missingFieldsSpec (file_struct_list : List Schema) (record : DmapRecord) :
    Finset String :=
  let complete := dict_list2set file_struct_list
  (file_struct_list.filter (fun fs =>
    let d := schemaKeys fs \ (recordKeys record ∩ complete)
    !(decide (d = ∅) || decide (d = schemaKeys fs)))).foldr
    (fun fs acc => (schemaKeys fs \ (recordKeys record ∩ complete)) ∪ acc) ∅

/-- The spec scenario record: `stid` as int16(7) and `data` as a float32
array of logical shape [2,2] holding 1.0, 2.0, 3.0, 4.0 (IEEE bit
patterns). -/
def c1scalar : DmapScalar := ⟨("stid"), .vint 7, 2, ("h")⟩

/-- The scenario's float32 array (values as IEEE-754 bit patterns). -/
def c1array : DmapArray :=
  ⟨("data"), .cells [1065353216, 1073741824, 1077936128, 1082130432], 4, ("f"),
    2, [2, 2]⟩

/-- The scenario record (scalar first, then the array). -/
def c1record : DmapRecord := [.scalar c1scalar, .array c1array]

/-- A well-formed array with the non-palindromic logical shape [1,2]. -/
def cxArray : DmapArray := ⟨("da"), .cells [5, 6], 2, ("h"), 2, [1, 2]⟩

/-- A record holding `cxArray`, used to exhibit the shape flip. -/
def cxRecord : DmapRecord := [.scalar ⟨("st"), .vint 7, 2, ("h")⟩, .array cxArray]

/-- One encoded copy of `cxRecord`. -/
def cxBuf : List Nat := dmap_records_to_bytes [cxRecord]

/-- The `slist` sentinel: a zero-length range-gate list. -/
def slistArray : DmapArray := ⟨("slist"), .cells [], 2, ("h"), 1, [0]⟩

/-- A record carrying the `slist` sentinel. -/
def slistRecord : DmapRecord :=
  [.scalar ⟨("st"), .vint 7, 2, ("h")⟩, .array slistArray]

/-- A zero-length dimension on an array NOT named `slist`. -/
def zeroDimArray : DmapArray := ⟨("foo"), .cells [], 2, ("h"), 1, [0]⟩

/-- A record carrying `zeroDimArray`. -/
def zeroDimRecord : DmapRecord :=
  [.scalar ⟨("st"), .vint 7, 2, ("h")⟩, .array zeroDimArray]

/-- Two concatenated encoded records. -/
def twoRecBuf : List Nat := dmap_records_to_bytes [cxRecord, cxRecord]

/-- `twoRecBuf` with the first record's `block_size` field corrupted by +1. -/
def corruptBuf : List Nat := twoRecBuf.set 4 ((twoRecBuf.getD 4 0) + 1)

/-- A 16-byte record header: encoding id, `block_size = 8`, `num_scalars = 0`,
`num_arrays = 1` — a header whose scalar count is zero. -/
def c8buf : List Nat := [1, 0, 0, 0, 8, 0, 0, 0, 0, 0, 0, 0, 1, 0, 0, 0]

/-- A two-group schema: a required-style group and an optional group. -/
def c4schema : List Schema :=
  [[(("stid"), ("h")), (("cp"), ("h"))], [(("xcf"), ("h"))]]

/-- A record with the first group fully present and the second fully absent. -/
def c4record : DmapRecord :=
  [.scalar ⟨("stid"), .vint 7, 2, ("h")⟩, .scalar ⟨("cp"), .vint 1, 2, ("h")⟩]

theorem toLE_length (w n : Nat) : (toLE w n).length = w := by
  induction w generalizing n with
  | zero => rfl
  | succ w ih => simp [toLE, ih]

theorem leVal_toLE (w n : Nat) (h : n < 2 ^ (8 * w)) : leVal (toLE w n) = n := by
  induction w generalizing n with
  | zero =>
    simp only [Nat.mul_zero, pow_zero, Nat.lt_one_iff] at h
    simp [toLE, leVal, h]
  | succ w ih =>
    have e : 8 * (w + 1) = 8 * w + 8 := by ring
    rw [e, pow_add] at h
    have h2 : n / 256 < 2 ^ (8 * w) := by
      apply Nat.div_lt_of_lt_mul
      calc n < 2 ^ (8 * w) * 2 ^ 8 := h
        _ = 256 * 2 ^ (8 * w) := by rw [mul_comm]; norm_num
    simp only [toLE, leVal, ih (n / 256) h2]
    omega

theorem int_wrap (w : Nat) (v : Int) (hw : 0 < w)
    (h1 : -((2 : Int) ^ (8 * w - 1)) ≤ v) (h2 : v < (2 : Int) ^ (8 * w - 1)) :
    (v % ((2 : Int) ^ (8 * w))).toNat < 2 ^ (8 * w) ∧
    toSigned w ((v % ((2 : Int) ^ (8 * w))).toNat) = v := by
  have e : 8 * w = (8 * w - 1) + 1 := by omega
  have hK : (2 : Int) ^ (8 * w) = 2 * (2 : Int) ^ (8 * w - 1) := by
    conv_lhs => rw [e]
    rw [pow_succ]; ring
  rcases le_or_lt 0 v with hv | hv
  · have hlt : v < (2 : Int) ^ (8 * w) := by
      rw [hK]
      have hpos : (0 : Int) < (2 : Int) ^ (8 * w - 1) := by positivity
      omega
    have hmod : v % ((2 : Int) ^ (8 * w)) = v := Int.emod_eq_of_lt hv hlt
    rw [hmod]
    constructor
    · have : ((v.toNat : Int)) = v := Int.toNat_of_nonneg hv
      have hlt2 : (v.toNat : Int) < ((2 : Int) ^ (8 * w)) := by rw [this]; exact hlt
      have : (2 : Int) ^ (8 * w) = ((2 ^ (8 * w) : Nat) : Int) := by push_cast; ring
      rw [this] at hlt2
      exact_mod_cast hlt2
    · unfold toSigned
      have hc : ((v.toNat : Int)) = v := Int.toNat_of_nonneg hv
      have hnat : 2 * v.toNat < 2 ^ (8 * w) := by
        have : (2 * (v.toNat : Int)) < (2 : Int) ^ (8 * w) := by
          rw [hc, hK]; omega
        have hcast : (2 : Int) ^ (8 * w) = ((2 ^ (8 * w) : Nat) : Int) := by push_cast; ring
        rw [hcast] at this
        exact_mod_cast this
      rw [if_pos hnat, hc]
  · have hge : -((2 : Int) ^ (8 * w)) ≤ v := by
      rw [hK]
      have hpos : (0 : Int) < (2 : Int) ^ (8 * w - 1) := by positivity
      omega
    have hmod : v % ((2 : Int) ^ (8 * w)) = v + (2 : Int) ^ (8 * w) := by
      have h3 : (v + (2 : Int) ^ (8 * w)) % ((2 : Int) ^ (8 * w)) = v % ((2 : Int) ^ (8 * w)) :=
        Int.add_emod_self
      have h4 : (v + (2 : Int) ^ (8 * w)) % ((2 : Int) ^ (8 * w)) = v + (2 : Int) ^ (8 * w) := by
        apply Int.emod_eq_of_lt
        · omega
        · omega
      omega
    rw [hmod]
    have hvk : 0 ≤ v + (2 : Int) ^ (8 * w) := by omega
    have hc : (((v + (2 : Int) ^ (8 * w)).toNat : Int)) = v + (2 : Int) ^ (8 * w) :=
      Int.toNat_of_nonneg hvk
    have hcast : (2 : Int) ^ (8 * w) = ((2 ^ (8 * w) : Nat) : Int) := by push_cast; ring
    constructor
    · have : ((v + (2 : Int) ^ (8 * w)).toNat : Int) < ((2 ^ (8 * w) : Nat) : Int) := by
        rw [hc, ← hcast]; omega
      exact_mod_cast this
    · unfold toSigned
      have hnat : ¬ (2 * (v + (2 : Int) ^ (8 * w)).toNat < 2 ^ (8 * w)) := by
      -- v + K ≥ K - 2^(8w-1) = 2^(8w-1), so twice it is ≥ K
        intro hlt
        have : (2 * ((v + (2 : Int) ^ (8 * w)).toNat : Int)) < ((2 ^ (8 * w) : Nat) : Int) := by
          exact_mod_cast hlt
        rw [hc, ← hcast, hK] at this
        omega
      rw [if_neg hnat, hc]
      ring

theorem drop_chunk {buf X Y : List Nat} {c : Nat} (h : buf.drop c = X ++ Y) :
    buf.drop (c + X.length) = Y := by
  rw [← List.drop_drop, h, List.drop_left]

theorem take_chunk {buf X Y : List Nat} {c : Nat} (h : buf.drop c = X ++ Y) :
    (buf.drop c).take X.length = X := by
  rw [h, List.take_left]

theorem findZero_append (l rest : List Nat) (hl : ∀ b ∈ l, b ≠ 0) :
    findZero (l ++ 0 :: rest) = some l.length := by
  induction l with
  | nil => simp [findZero]
  | cons b bs ih =>
    have hb : b ≠ 0 := hl b (by simp)
    simp [findZero, hb, ih (fun x hx => hl x (by simp [hx]))]

theorem bytesToStr_strToBytes (s : String) : bytesToStr (strToBytes s) = s := by
  cases s with
  | mk data =>
    have hcomp : Char.ofNat ∘ Char.toNat = id := funext Char.ofNat_toNat
    show String.mk ((data.map Char.toNat).map Char.ofNat) = String.mk data
    rw [List.map_map, hcomp, List.map_id]

theorem strToBytes_length (s : String) : (strToBytes s).length = s.length := by
  rw [strToBytes, List.length_map]
  rfl

theorem strToBytes_ne_zero {s : String} (h : validAscii s) :
    ∀ b ∈ strToBytes s, b ≠ 0 := by
  intro b hb
  simp only [strToBytes, List.mem_map] at hb
  obtain ⟨ch, hch, rfl⟩ := hb
  have := (h ch hch).1
  omega

theorem read_data_c_ok {buf : List Nat} {c b : Nat} {rest : List Nat}
    (h : buf.drop c = b :: rest) :
    read_data buf c ("c") 1 = .ok (.vchar b, c + 1) := by
  have hL : buf.length - c = rest.length + 1 := by
    rw [← List.length_drop, h]; simp
  have h1 : ¬ (buf.length ≤ c) := by omega
  have h2 : ¬ (buf.length - c < 1) := by omega
  have hget : buf.getD c 0 = b := by
    have hq : (buf.drop c)[(0 : Nat)]? = buf[c + 0]? := List.getElem?_drop buf c 0
    rw [h] at hq
    simp only [List.getElem?_cons_zero, Nat.add_zero] at hq
    simp [List.getD, hq.symm]
  unfold read_data
  rw [if_neg h1, if_neg h2, if_pos rfl, hget]

theorem drop_at {buf X Y : List Nat} {c k : Nat} (h : buf.drop c = X ++ Y)
    (hk : k = c + X.length) : buf.drop k = Y := by
  subst hk; exact drop_chunk h

theorem chrUtf8_lt {t : Nat} (h : t < 128) : chrUtf8 t = [t] := by
  simp [chrUtf8, h]

theorem registry_cases (t : Nat) (h : DMAP_DATA_TYPES t ≠ none) :
    t = 0 ∨ t = 1 ∨ t = 2 ∨ t = 3 ∨ t = 4 ∨ t = 8 ∨ t = 9 ∨ t = 10 ∨
    t = 16 ∨ t = 17 ∨ t = 18 ∨ t = 19 := by
  by_contra hc
  push_neg at hc
  apply h
  obtain ⟨h0, h1, h2, h3, h4, h8, h9, h10, h16, h17, h18, h19⟩ := hc
  unfold DMAP_DATA_TYPES
  rw [if_neg h0, if_neg h1, if_neg h2, if_neg h3, if_neg h4, if_neg h8,
    if_neg h9, if_neg h10, if_neg h16, if_neg h17, if_neg h18, if_neg h19]

theorem read_data_s_ok {buf : List Nat} {c : Nat} {name : String} {rest : List Nat}
    (hname : validAscii name) (h : buf.drop c = strToBytes name ++ 0 :: rest) :
    read_data buf c ("s") 1 =
      .ok (.vstr name, c + (strToBytes name).length + 1) := by
  have hL : buf.length - c = (strToBytes name).length + rest.length + 1 := by
    rw [← List.length_drop, h]
    simp [List.length_append]
    omega
  have h1 : ¬ (buf.length ≤ c) := by omega
  have h2 : ¬ (buf.length - c < 1) := by omega
  have hfz : findZero (buf.drop c) = some (strToBytes name).length := by
    rw [h]; exact findZero_append _ _ (strToBytes_ne_zero hname)
  have h3 : ¬ (buf.length < c + (strToBytes name).length) := by omega
  have htake : (buf.drop c).take (strToBytes name).length = strToBytes name := by
    rw [h]; exact List.take_left _ _
  unfold read_data
  rw [if_neg h1, if_neg h2, if_neg (by decide), if_pos rfl]
  simp only [hfz]
  rw [if_neg h3, htake, bytesToStr_strToBytes]

theorem read_data_int_ok {buf : List Nat} {c w n : Nat} {rest : List Nat} {fmt : String}
    (hfmt : fmt = ("h") ∨ fmt = ("i") ∨ fmt = ("q")) (hw : 0 < w)
    (hn : n < 2 ^ (8 * w)) (h : buf.drop c = toLE w n ++ rest) :
    read_data buf c fmt w = .ok (.vint (toSigned w n), c + w) := by
  have hL : buf.length - c = w + rest.length := by
    rw [← List.length_drop, h]
    simp [List.length_append, toLE_length]
  have h1 : ¬ (buf.length ≤ c) := by omega
  have h2 : ¬ (buf.length - c < w) := by omega
  have htake : (buf.drop c).take w = toLE w n := by
    rw [h]; exact List.take_left' (toLE_length w n)
  rcases hfmt with rfl | rfl | rfl <;>
  · unfold read_data
    rw [if_neg h1, if_neg h2, if_neg (by decide), if_neg (by decide),
      if_pos (by decide)]
    unfold readLE
    rw [htake, leVal_toLE w n hn]

theorem read_data_uint_ok {buf : List Nat} {c w n : Nat} {rest : List Nat} {fmt : String}
    (hfmt : fmt = ("B") ∨ fmt = ("H") ∨ fmt = ("I") ∨ fmt = ("Q")) (hw : 0 < w)
    (hn : n < 2 ^ (8 * w)) (h : buf.drop c = toLE w n ++ rest) :
    read_data buf c fmt w = .ok (.vuint n, c + w) := by
  have hL : buf.length - c = w + rest.length := by
    rw [← List.length_drop, h]
    simp [List.length_append, toLE_length]
  have h1 : ¬ (buf.length ≤ c) := by omega
  have h2 : ¬ (buf.length - c < w) := by omega
  have htake : (buf.drop c).take w = toLE w n := by
    rw [h]; exact List.take_left' (toLE_length w n)
  rcases hfmt with rfl | rfl | rfl | rfl <;>
  · unfold read_data
    rw [if_neg h1, if_neg h2, if_neg (by decide), if_neg (by decide),
      if_neg (by decide), if_neg (by decide), if_pos (by decide)]
    unfold readLE
    rw [htake, leVal_toLE w n hn]

theorem read_data_float_ok {buf : List Nat} {c w n : Nat} {rest : List Nat} {fmt : String}
    (hfmt : fmt = ("f") ∨ fmt = ("d")) (hw : 0 < w)
    (hn : n < 2 ^ (8 * w)) (h : buf.drop c = toLE w n ++ rest) :
    read_data buf c fmt w = .ok (.vfloat n, c + w) := by
  have hL : buf.length - c = w + rest.length := by
    rw [← List.length_drop, h]
    simp [List.length_append, toLE_length]
  have h1 : ¬ (buf.length ≤ c) := by omega
  have h2 : ¬ (buf.length - c < w) := by omega
  have htake : (buf.drop c).take w = toLE w n := by
    rw [h]; exact List.take_left' (toLE_length w n)
  rcases hfmt with rfl | rfl <;>
  · unfold read_data
    rw [if_neg h1, if_neg h2, if_neg (by decide), if_neg (by decide),
      if_neg (by decide), if_pos (by decide)]
    unfold readLE
    rw [htake, leVal_toLE w n hn]

theorem scalar_bytes_decomp (s : DmapScalar) (ht : s.data_type < 128) :
    dmap_scalar_to_bytes s =
      strToBytes s.name ++ 0 :: s.data_type :: scalarPayload s := by
  simp [dmap_scalar_to_bytes, chrUtf8_lt ht, List.append_assoc]

theorem read_scalar_ok_int
    {buf : List Nat} {c : Nat} {name : String} {t : Nat} {fmt : String}
    {v : Int} {rest : List Nat}
    (hT : DMAP_DATA_TYPES t = some ((fmt, fmtWidth fmt)))
    (hfmt : fmt = ("h") ∨ fmt = ("i") ∨ fmt = ("q"))
    (ht : t < 128)
    (hname : validAscii name)
    (hlo : -((2 : Int) ^ (8 * fmtWidth fmt - 1)) ≤ v)
    (hhi : v < (2 : Int) ^ (8 * fmtWidth fmt - 1))
    (h : buf.drop c = dmap_scalar_to_bytes ⟨name, .vint v, t, fmt⟩ ++ rest) :
    read_scalar buf c =
      .ok (⟨name, .vint v, t, fmt⟩,
        c + (dmap_scalar_to_bytes ⟨name, .vint v, t, fmt⟩).length) := by
  have hw : 0 < fmtWidth fmt := by rcases hfmt with rfl | rfl | rfl <;> decide
  obtain ⟨hn, hsig⟩ := int_wrap (fmtWidth fmt) v hw hlo hhi
  have hpay : scalarPayload ⟨name, .vint v, t, fmt⟩ =
      toLE (fmtWidth fmt) ((v % ((2 : Int) ^ (8 * fmtWidth fmt))).toNat) := by
    rcases hfmt with rfl | rfl | rfl <;> simp [scalarPayload]
  have hdec : buf.drop c = strToBytes name ++ 0 :: t ::
      (toLE (fmtWidth fmt) ((v % ((2 : Int) ^ (8 * fmtWidth fmt))).toNat) ++ rest) := by
    rw [h, scalar_bytes_decomp _ ht]
    rw [show (⟨name, .vint v, t, fmt⟩ : DmapScalar).name = name from rfl,
      show (⟨name, .vint v, t, fmt⟩ : DmapScalar).data_type = t from rfl, hpay]
    simp [List.append_assoc]
  have hs := read_data_s_ok hname hdec
  have hdec2 : buf.drop c = (strToBytes name ++ [0]) ++ (t ::
      (toLE (fmtWidth fmt) ((v % ((2 : Int) ^ (8 * fmtWidth fmt))).toNat) ++ rest)) := by
    rw [hdec]; simp
  have hc1 := drop_at hdec2 (show c + (strToBytes name).length + 1 =
    c + (strToBytes name ++ [0]).length by simp [List.length_append]; omega)
  have hcread := read_data_c_ok hc1
  have hdec3 : buf.drop c = (strToBytes name ++ 0 :: [t]) ++
      (toLE (fmtWidth fmt) ((v % ((2 : Int) ^ (8 * fmtWidth fmt))).toNat) ++ rest) := by
    rw [hdec]; simp
  have hc2 := drop_at hdec3 (show c + (strToBytes name).length + 1 + 1 =
    c + (strToBytes name ++ 0 :: [t]).length by simp [List.length_append]; omega)
  have hiread := read_data_int_ok hfmt hw hn hc2
  have hlen : (dmap_scalar_to_bytes ⟨name, .vint v, t, fmt⟩).length =
      (strToBytes name).length + 2 + fmtWidth fmt := by
    rw [scalar_bytes_decomp _ ht]
    rw [show (⟨name, .vint v, t, fmt⟩ : DmapScalar).name = name from rfl, hpay]
    simp [List.length_append, toLE_length]
    omega
  unfold read_scalar
  simp only [hs, hcread, DmapVal.asStr, DmapVal.asNat, hT, pyStrIntNeq,
    if_true, hiread, hsig, hlen]
  rw [show c + (strToBytes name).length + 1 + 1 + fmtWidth fmt =
    c + ((strToBytes name).length + 2 + fmtWidth fmt) by omega]

theorem read_scalar_ok_uint
    {buf : List Nat} {c : Nat} {name : String} {t : Nat} {fmt : String}
    {n : Nat} {rest : List Nat}
    (hT : DMAP_DATA_TYPES t = some ((fmt, fmtWidth fmt)))
    (hfmt : fmt = ("B") ∨ fmt = ("H") ∨ fmt = ("I") ∨ fmt = ("Q"))
    (ht : t < 128)
    (hname : validAscii name)
    (hn : n < 2 ^ (8 * fmtWidth fmt))
    (h : buf.drop c = dmap_scalar_to_bytes ⟨name, .vuint n, t, fmt⟩ ++ rest) :
    read_scalar buf c =
      .ok (⟨name, .vuint n, t, fmt⟩,
        c + (dmap_scalar_to_bytes ⟨name, .vuint n, t, fmt⟩).length) := by
  have hw : 0 < fmtWidth fmt := by rcases hfmt with rfl | rfl | rfl | rfl <;> decide
  have hpay : scalarPayload ⟨name, .vuint n, t, fmt⟩ = toLE (fmtWidth fmt) n := by
    rcases hfmt with rfl | rfl | rfl | rfl <;>
      simp [scalarPayload, Nat.mod_eq_of_lt hn]
  have hdec : buf.drop c = strToBytes name ++ 0 :: t ::
      (toLE (fmtWidth fmt) n ++ rest) := by
    rw [h, scalar_bytes_decomp _ ht]
    rw [show (⟨name, .vuint n, t, fmt⟩ : DmapScalar).name = name from rfl,
      show (⟨name, .vuint n, t, fmt⟩ : DmapScalar).data_type = t from rfl, hpay]
    simp [List.append_assoc]
  have hs := read_data_s_ok hname hdec
  have hdec2 : buf.drop c = (strToBytes name ++ [0]) ++ (t ::
      (toLE (fmtWidth fmt) n ++ rest)) := by
    rw [hdec]; simp
  have hc1 := drop_at hdec2 (show c + (strToBytes name).length + 1 =
    c + (strToBytes name ++ [0]).length by simp [List.length_append]; omega)
  have hcread := read_data_c_ok hc1
  have hdec3 : buf.drop c = (strToBytes name ++ 0 :: [t]) ++
      (toLE (fmtWidth fmt) n ++ rest) := by
    rw [hdec]; simp
  have hc2 := drop_at hdec3 (show c + (strToBytes name).length + 1 + 1 =
    c + (strToBytes name ++ 0 :: [t]).length by simp [List.length_append]; omega)
  have huread := read_data_uint_ok hfmt hw hn hc2
  have hlen : (dmap_scalar_to_bytes ⟨name, .vuint n, t, fmt⟩).length =
      (strToBytes name).length + 2 + fmtWidth fmt := by
    rw [scalar_bytes_decomp _ ht]
    rw [show (⟨name, .vuint n, t, fmt⟩ : DmapScalar).name = name from rfl, hpay]
    simp [List.length_append, toLE_length]
    omega
  unfold read_scalar
  simp only [hs, hcread, DmapVal.asStr, DmapVal.asNat, hT, pyStrIntNeq,
    if_true, huread, hlen]
  rw [show c + (strToBytes name).length + 1 + 1 + fmtWidth fmt =
    c + ((strToBytes name).length + 2 + fmtWidth fmt) by omega]

theorem read_scalar_ok_float
    {buf : List Nat} {c : Nat} {name : String} {t : Nat} {fmt : String}
    {n : Nat} {rest : List Nat}
    (hT : DMAP_DATA_TYPES t = some ((fmt, fmtWidth fmt)))
    (hfmt : fmt = ("f") ∨ fmt = ("d"))
    (ht : t < 128)
    (hname : validAscii name)
    (hn : n < 2 ^ (8 * fmtWidth fmt))
    (h : buf.drop c = dmap_scalar_to_bytes ⟨name, .vfloat n, t, fmt⟩ ++ rest) :
    read_scalar buf c =
      .ok (⟨name, .vfloat n, t, fmt⟩,
        c + (dmap_scalar_to_bytes ⟨name, .vfloat n, t, fmt⟩).length) := by
  have hw : 0 < fmtWidth fmt := by rcases hfmt with rfl | rfl <;> decide
  have hpay : scalarPayload ⟨name, .vfloat n, t, fmt⟩ = toLE (fmtWidth fmt) n := by
    rcases hfmt with rfl | rfl <;>
      simp [scalarPayload, Nat.mod_eq_of_lt hn]
  have hdec : buf.drop c = strToBytes name ++ 0 :: t ::
      (toLE (fmtWidth fmt) n ++ rest) := by
    rw [h, scalar_bytes_decomp _ ht]
    rw [show (⟨name, .vfloat n, t, fmt⟩ : DmapScalar).name = name from rfl,
      show (⟨name, .vfloat n, t, fmt⟩ : DmapScalar).data_type = t from rfl, hpay]
    simp [List.append_assoc]
  have hs := read_data_s_ok hname hdec
  have hdec2 : buf.drop c = (strToBytes name ++ [0]) ++ (t ::
      (toLE (fmtWidth fmt) n ++ rest)) := by
    rw [hdec]; simp
  have hc1 := drop_at hdec2 (show c + (strToBytes name).length + 1 =
    c + (strToBytes name ++ [0]).length by simp [List.length_append]; omega)
  have hcread := read_data_c_ok hc1
  have hdec3 : buf.drop c = (strToBytes name ++ 0 :: [t]) ++
      (toLE (fmtWidth fmt) n ++ rest) := by
    rw [hdec]; simp
  have hc2 := drop_at hdec3 (show c + (strToBytes name).length + 1 + 1 =
    c + (strToBytes name ++ 0 :: [t]).length by simp [List.length_append]; omega)
  have hfread := read_data_float_ok hfmt hw hn hc2
  have hlen : (dmap_scalar_to_bytes ⟨name, .vfloat n, t, fmt⟩).length =
      (strToBytes name).length + 2 + fmtWidth fmt := by
    rw [scalar_bytes_decomp _ ht]
    rw [show (⟨name, .vfloat n, t, fmt⟩ : DmapScalar).name = name from rfl, hpay]
    simp [List.length_append, toLE_length]
    omega
  unfold read_scalar
  simp only [hs, hcread, DmapVal.asStr, DmapVal.asNat, hT, pyStrIntNeq,
    if_true, hfread, hlen]
  rw [show c + (strToBytes name).length + 1 + 1 + fmtWidth fmt =
    c + ((strToBytes name).length + 2 + fmtWidth fmt) by omega]

theorem read_scalar_ok_char
    {buf : List Nat} {c : Nat} {name : String} {b : Nat} {rest : List Nat}
    (hname : validAscii name) (hb : b < 128)
    (h : buf.drop c = dmap_scalar_to_bytes ⟨name, .vchar b, 1, ("c")⟩ ++ rest) :
    read_scalar buf c =
      .ok (⟨name, .vchar b, 1, ("c")⟩,
        c + (dmap_scalar_to_bytes ⟨name, .vchar b, 1, ("c")⟩).length) := by
  have hpay : scalarPayload ⟨name, .vchar b, 1, ("c")⟩ = [b] := by
    simp [scalarPayload, chrUtf8_lt hb]
  have hdec : buf.drop c = strToBytes name ++ 0 :: 1 :: (b :: rest) := by
    rw [h, scalar_bytes_decomp _ (by norm_num)]
    rw [show (⟨name, .vchar b, 1, ("c")⟩ : DmapScalar).name = name from rfl,
      show (⟨name, .vchar b, 1, ("c")⟩ : DmapScalar).data_type = 1 from rfl, hpay]
    simp [List.append_assoc]
  have hs := read_data_s_ok hname hdec
  have hdec2 : buf.drop c = (strToBytes name ++ [0]) ++ (1 :: (b :: rest)) := by
    rw [hdec]; simp
  have hc1 := drop_at hdec2 (show c + (strToBytes name).length + 1 =
    c + (strToBytes name ++ [0]).length by simp [List.length_append]; omega)
  have hcread := read_data_c_ok hc1
  have hdec3 : buf.drop c = (strToBytes name ++ 0 :: [1]) ++ (b :: rest) := by
    rw [hdec]; simp
  have hc2 := drop_at hdec3 (show c + (strToBytes name).length + 1 + 1 =
    c + (strToBytes name ++ 0 :: [1]).length by simp [List.length_append]; omega)
  have hbread := read_data_c_ok hc2
  have hlen : (dmap_scalar_to_bytes ⟨name, .vchar b, 1, ("c")⟩).length =
      (strToBytes name).length + 3 := by
    rw [scalar_bytes_decomp _ (by norm_num)]
    rw [show (⟨name, .vchar b, 1, ("c")⟩ : DmapScalar).name = name from rfl, hpay]
    simp [List.length_append]
  unfold read_scalar
  simp only [hs, hcread, DmapVal.asStr, DmapVal.asNat, pyStrIntNeq, if_true, hlen]
  rw [show DMAP_DATA_TYPES 1 = some ((("c"), 1)) from rfl]
  simp only [hbread]
  rw [show c + (strToBytes name).length + 1 + 1 + 1 =
    c + ((strToBytes name).length + 3) by omega]

theorem read_scalar_ok_str
    {buf : List Nat} {c : Nat} {name str : String} {rest : List Nat}
    (hname : validAscii name) (hstr : validAscii str)
    (h : buf.drop c = dmap_scalar_to_bytes ⟨name, .vstr str, 9, ("s")⟩ ++ rest) :
    read_scalar buf c =
      .ok (⟨name, .vstr str, 9, ("s")⟩,
        c + (dmap_scalar_to_bytes ⟨name, .vstr str, 9, ("s")⟩).length) := by
  have hpay : scalarPayload ⟨name, .vstr str, 9, ("s")⟩ = strToBytes str ++ [0] := by
    simp [scalarPayload]
  have hdec : buf.drop c = strToBytes name ++ 0 :: 9 ::
      (strToBytes str ++ 0 :: rest) := by
    rw [h, scalar_bytes_decomp _ (by norm_num)]
    rw [show (⟨name, .vstr str, 9, ("s")⟩ : DmapScalar).name = name from rfl,
      show (⟨name, .vstr str, 9, ("s")⟩ : DmapScalar).data_type = 9 from rfl, hpay]
    simp [List.append_assoc]
  have hs := read_data_s_ok hname hdec
  have hdec2 : buf.drop c = (strToBytes name ++ [0]) ++ (9 ::
      (strToBytes str ++ 0 :: rest)) := by
    rw [hdec]; simp
  have hc1 := drop_at hdec2 (show c + (strToBytes name).length + 1 =
    c + (strToBytes name ++ [0]).length by simp [List.length_append]; omega)
  have hcread := read_data_c_ok hc1
  have hdec3 : buf.drop c = (strToBytes name ++ 0 :: [9]) ++
      (strToBytes str ++ 0 :: rest) := by
    rw [hdec]; simp
  have hc2 := drop_at hdec3 (show c + (strToBytes name).length + 1 + 1 =
    c + (strToBytes name ++ 0 :: [9]).length by simp [List.length_append]; omega)
  have hsread := read_data_s_ok hstr hc2
  have hlen : (dmap_scalar_to_bytes ⟨name, .vstr str, 9, ("s")⟩).length =
      (strToBytes name).length + 3 + (strToBytes str).length := by
    rw [scalar_bytes_decomp _ (by norm_num)]
    rw [show (⟨name, .vstr str, 9, ("s")⟩ : DmapScalar).name = name from rfl, hpay]
    simp [List.length_append]
    omega
  unfold read_scalar
  simp only [hs, hcread, DmapVal.asStr, DmapVal.asNat, pyStrIntNeq, if_true, hlen]
  rw [show DMAP_DATA_TYPES 9 = some ((("s"), 1)) from rfl]
  simp only [hsread]
  rw [show c + (strToBytes name).length + 1 + 1 + (strToBytes str).length + 1 =
    c + ((strToBytes name).length + 3 + (strToBytes str).length) by omega]

theorem read_scalar_ok {buf : List Nat} {c : Nat} {s : DmapScalar} {rest : List Nat}
    (hwf : wfScalar s) (h : buf.drop c = dmap_scalar_to_bytes s ++ rest) :
    read_scalar buf c = .ok (s, c + (dmap_scalar_to_bytes s).length) := by
  obtain ⟨sname, sval, st, sfmt⟩ := s
  obtain ⟨hreg, hne, hname, hfmt, hval⟩ := hwf
  rcases registry_cases st hreg with rfl | rfl | rfl | rfl | rfl | rfl | rfl | rfl | rfl | rfl | rfl | rfl
  · exact absurd rfl hne
  · rw [show fmtOfType 1 = ("c") from rfl] at hfmt
    subst hfmt
    dsimp only at hval
    cases sval with
    | vchar b => exact read_scalar_ok_char hname hval.2 h
    | vint v => exact absurd hval.1 (by decide)
    | vuint n => exact absurd hval.1 (by decide)
    | vfloat n => exact absurd hval.1 (by decide)
    | vstr str => exact absurd hval.1 (by decide)
  · rw [show fmtOfType 2 = ("h") from rfl] at hfmt
    subst hfmt
    dsimp only at hval
    cases sval with
    | vint v =>
      exact read_scalar_ok_int (by decide) (by decide) (by decide) hname
        hval.2.1 hval.2.2 h
    | vchar b => exact absurd hval.1 (by decide)
    | vuint n => exact absurd hval.1 (by decide)
    | vfloat n => exact absurd hval.1 (by decide)
    | vstr str => exact absurd hval.1 (by decide)
  · rw [show fmtOfType 3 = ("i") from rfl] at hfmt
    subst hfmt
    dsimp only at hval
    cases sval with
    | vint v =>
      exact read_scalar_ok_int (by decide) (by decide) (by decide) hname
        hval.2.1 hval.2.2 h
    | vchar b => exact absurd hval.1 (by decide)
    | vuint n => exact absurd hval.1 (by decide)
    | vfloat n => exact absurd hval.1 (by decide)
    | vstr str => exact absurd hval.1 (by decide)
  · rw [show fmtOfType 4 = ("f") from rfl] at hfmt
    subst hfmt
    dsimp only at hval
    cases sval with
    | vfloat n =>
      exact read_scalar_ok_float (by decide) (by decide) (by decide) hname
        hval.2 h
    | vchar b => exact absurd hval.1 (by decide)
    | vint v => exact absurd hval.1 (by decide)
    | vuint n => exact absurd hval.1 (by decide)
    | vstr str => exact absurd hval.1 (by decide)
  · rw [show fmtOfType 8 = ("d") from rfl] at hfmt
    subst hfmt
    dsimp only at hval
    cases sval with
    | vfloat n =>
      exact read_scalar_ok_float (by decide) (by decide) (by decide) hname
        hval.2 h
    | vchar b => exact absurd hval.1 (by decide)
    | vint v => exact absurd hval.1 (by decide)
    | vuint n => exact absurd hval.1 (by decide)
    | vstr str => exact absurd hval.1 (by decide)
  · rw [show fmtOfType 9 = ("s") from rfl] at hfmt
    subst hfmt
    dsimp only at hval
    cases sval with
    | vstr str => exact read_scalar_ok_str hname hval.2 h
    | vchar b => exact absurd hval.1 (by decide)
    | vint v => exact absurd hval.1 (by decide)
    | vuint n => exact absurd hval.1 (by decide)
    | vfloat n => exact absurd hval.1 (by decide)
  · rw [show fmtOfType 10 = ("q") from rfl] at hfmt
    subst hfmt
    dsimp only at hval
    cases sval with
    | vint v =>
      exact read_scalar_ok_int (by decide) (by decide) (by decide) hname
        hval.2.1 hval.2.2 h
    | vchar b => exact absurd hval.1 (by decide)
    | vuint n => exact absurd hval.1 (by decide)
    | vfloat n => exact absurd hval.1 (by decide)
    | vstr str => exact absurd hval.1 (by decide)
  · rw [show fmtOfType 16 = ("B") from rfl] at hfmt
    subst hfmt
    dsimp only at hval
    cases sval with
    | vuint n =>
      exact read_scalar_ok_uint (by decide) (by decide) (by decide) hname
        hval.2 h
    | vchar b => exact absurd hval.1 (by decide)
    | vint v => exact absurd hval.1 (by decide)
    | vfloat n => exact absurd hval.1 (by decide)
    | vstr str => exact absurd hval.1 (by decide)
  · rw [show fmtOfType 17 = ("H") from rfl] at hfmt
    subst hfmt
    dsimp only at hval
    cases sval with
    | vuint n =>
      exact read_scalar_ok_uint (by decide) (by decide) (by decide) hname
        hval.2 h
    | vchar b => exact absurd hval.1 (by decide)
    | vint v => exact absurd hval.1 (by decide)
    | vfloat n => exact absurd hval.1 (by decide)
    | vstr str => exact absurd hval.1 (by decide)
  · rw [show fmtOfType 18 = ("I") from rfl] at hfmt
    subst hfmt
    dsimp only at hval
    cases sval with
    | vuint n =>
      exact read_scalar_ok_uint (by decide) (by decide) (by decide) hname
        hval.2 h
    | vchar b => exact absurd hval.1 (by decide)
    | vint v => exact absurd hval.1 (by decide)
    | vfloat n => exact absurd hval.1 (by decide)
    | vstr str => exact absurd hval.1 (by decide)
  · rw [show fmtOfType 19 = ("Q") from rfl] at hfmt
    subst hfmt
    dsimp only at hval
    cases sval with
    | vuint n =>
      exact read_scalar_ok_uint (by decide) (by decide) (by decide) hname
        hval.2 h
    | vchar b => exact absurd hval.1 (by decide)
    | vint v => exact absurd hval.1 (by decide)
    | vfloat n => exact absurd hval.1 (by decide)
    | vstr str => exact absurd hval.1 (by decide)

theorem readI32s_ok {buf : List Nat} {ds : List Int} {rest : List Nat} {c : Nat}
    (hds : ∀ d ∈ ds, -((2 : Int) ^ 31) ≤ d ∧ d < (2 : Int) ^ 31)
    (h : buf.drop c = (ds.map packI32).flatten ++ rest) :
    readI32s buf ds.length c = .ok (ds, c + 4 * ds.length) := by
  induction ds generalizing c with
  | nil => simp [readI32s]
  | cons d ds ih =>
    obtain ⟨hlo, hhi⟩ := hds d (by simp)
    have hw : (0 : Nat) < 4 := by norm_num
    obtain ⟨hn, hsig⟩ := int_wrap 4 d hw (by exact_mod_cast hlo) (by exact_mod_cast hhi)
    have hh : buf.drop c = toLE 4 ((d % ((2 : Int) ^ (8 * 4))).toNat) ++
        ((ds.map packI32).flatten ++ rest) := by
      rw [h]
      simp [packI32, List.append_assoc]
    have hread := read_data_int_ok (Or.inr (Or.inl rfl)) hw hn hh
    have hnext : buf.drop (c + 4) = (ds.map packI32).flatten ++ rest := by
      apply drop_at hh
      simp [toLE_length]
    have hrec := ih (fun x hx => hds x (by simp [hx])) hnext
    show readI32s buf (ds.length + 1) c = _
    unfold readI32s
    simp only [hread, DmapVal.asInt, hsig, hrec]
    rw [show c + 4 + 4 * ds.length = c + 4 * (ds.length + 1) by omega]
    simp [List.length_cons]

theorem flatten_toLE_length (cs : List Nat) (w : Nat) :
    ((cs.map (toLE w)).flatten).length = cs.length * w := by
  induction cs with
  | nil => simp
  | cons x cs ih => simp [ih, toLE_length]; ring

theorem cellsOf_flat {w : Nat} (hw : 0 < w) (cs : List Nat)
    (hcs : ∀ x ∈ cs, x < 2 ^ (8 * w)) (rest : List Nat) :
    cellsOf ((cs.map (toLE w)).flatten ++ rest) w cs.length = cs := by
  induction cs with
  | nil => simp [cellsOf]
  | cons x cs ih =>
    have hx := hcs x (by simp)
    have hb : ((x :: cs).map (toLE w)).flatten ++ rest =
        toLE w x ++ ((cs.map (toLE w)).flatten ++ rest) := by
      simp [List.append_assoc]
    show cellsOf _ w (cs.length + 1) = _
    unfold cellsOf
    rw [hb, List.take_left' (toLE_length w x), List.drop_left' (toLE_length w x),
      leVal_toLE w x hx, ih (fun y hy => hcs y (by simp [hy]))]

theorem read_numerical_array_ok {buf : List Nat} {c w : Nat} {cs rest : List Nat}
    (hw : 0 < w) (hcle : c ≤ buf.length) (hcs : ∀ x ∈ cs, x < 2 ^ (8 * w))
    (h : buf.drop c = (cs.map (toLE w)).flatten ++ rest) :
    read_numerical_array buf c ((cs.length : Int)) w = .ok (cs, c + cs.length * w) := by
  have hL : buf.length - c = cs.length * w + rest.length := by
    rw [← List.length_drop, h, List.length_append, flatten_toLE_length]
  have h0 : ¬ (((cs.length : Nat) : Int) < 0) := by simp
  have htn : (((cs.length : Nat) : Int)).toNat = cs.length := by simp
  have h1 : ¬ (buf.length < c + cs.length * w) := by omega
  unfold read_numerical_array
  rw [if_neg h0, htn, if_neg h1, h, cellsOf_flat hw cs hcs rest]

theorem flatten_packI32_length (sh : List Int) :
    ((sh.map packI32).flatten).length = 4 * sh.length := by
  induction sh with
  | nil => simp
  | cons d ds ih => simp [packI32, toLE_length, ih]; ring

theorem foldl_prod_eq_prodNat (sh : List Int) (h : ∀ d ∈ sh, 0 ≤ d) :
    sh.foldl (fun acc d => acc * d) 1 = ((prodNat sh : Nat) : Int) := by
  rw [show sh.foldl (fun acc d => acc * d) 1 = sh.prod from (List.prod_eq_foldl).symm]
  induction sh with
  | nil => simp [prodNat]
  | cons d ds ih =>
    have hd := h d (by simp)
    have hds := ih (fun x hx => h x (by simp [hx]))
    simp only [List.prod_cons, prodNat, List.map_cons]
    rw [show ((d.toNat * (ds.map Int.toNat).prod : Nat) : Int) =
      ((d.toNat : Nat) : Int) * (((ds.map Int.toNat).prod : Nat) : Int) by push_cast; ring]
    rw [Int.toNat_of_nonneg hd]
    unfold prodNat at hds
    rw [hds]

theorem array_bytes_decomp (a : DmapArray) (ht : a.data_type < 128) :
    dmap_array_to_bytes a = strToBytes a.name ++ 0 :: a.data_type ::
      (packI32 a.dimension ++ ((a.shape.map packI32).flatten ++ arrayDataBytes a)) := by
  simp [dmap_array_to_bytes, chrUtf8_lt ht, List.append_assoc]

theorem read_array_ok_core
    {buf : List Nat} {c : Nat} {nm : String} {cs : List Nat} {t w : Nat}
    {fm : String} {dm : Int} {sh : List Int} {rest : List Nat} {B : Int}
    (hT : DMAP_DATA_TYPES t = some ((fm, w)))
    (ht128 : t < 128) (ht0 : t ≠ 0) (hw : 0 < w) (hwW : fmtWidth fm = w)
    (hnotsc : ¬ (fm = ("s") ∨ fm = ("c")))
    (hnm : validAscii nm) (hdm : dm = (sh.length : Int)) (hshne : sh ≠ [])
    (hge0 : ∀ d ∈ sh, 0 ≤ d) (hshlt31 : ∀ d ∈ sh, d < (2 : Int) ^ 31)
    (hnozero : ¬ ((∃ x ∈ sh.reverse, x ≤ 0) ∧ nm ≠ ("slist")))
    (hxlt : ∀ x ∈ sh, x < B)
    (hclen : cs.length = prodNat sh) (hcb : ∀ x ∈ cs, x < 2 ^ (8 * w))
    (h : buf.drop c = dmap_array_to_bytes ⟨nm, .cells cs, t, fm, dm, sh⟩ ++ rest)
    (hB : (((dmap_array_to_bytes ⟨nm, .cells cs, t, fm, dm, sh⟩).length : Nat) : Int)
      + 16 ≤ B)
    (hBhi : B < (2 : Int) ^ 31) :
    read_array buf c B =
      .ok (⟨nm, .cells cs, t, fm, dm, sh.reverse⟩,
        c + (dmap_array_to_bytes ⟨nm, .cells cs, t, fm, dm, sh⟩).length) := by
  have hdataB : arrayDataBytes ⟨nm, .cells cs, t, fm, dm, sh⟩ =
      (cs.map (toLE w)).flatten := by
    simp [arrayDataBytes, hwW]
  have hlenB : (dmap_array_to_bytes ⟨nm, .cells cs, t, fm, dm, sh⟩).length =
      (strToBytes nm).length + 6 + 4 * sh.length + cs.length * w := by
    rw [array_bytes_decomp _ ht128]
    simp only [List.length_append, List.length_cons, hdataB, flatten_toLE_length,
      flatten_packI32_length, packI32, toLE_length]
    omega
  -- the full layout with every landmark split out
  have hdec : buf.drop c = strToBytes nm ++ 0 :: t ::
      (packI32 dm ++ (((sh.map packI32).flatten) ++
        ((cs.map (toLE w)).flatten ++ rest))) := by
    rw [h, array_bytes_decomp _ ht128]
    simp [List.append_assoc, hdataB]
  -- overall length facts
  have hL : buf.length - c =
      ((strToBytes nm).length + 6 + 4 * sh.length + cs.length * w) + rest.length := by
    rw [← List.length_drop, h, List.length_append, hlenB]
  have hcbuf : c < buf.length := by
    have := congrArg List.length hdec
    rw [List.length_drop] at this
    simp [List.length_append] at this
    omega
  -- step 1: name
  have hs := read_data_s_ok hnm hdec
  -- step 2: type byte
  have hdec2 : buf.drop c = (strToBytes nm ++ [0]) ++ (t ::
      (packI32 dm ++ (((sh.map packI32).flatten) ++
        ((cs.map (toLE w)).flatten ++ rest)))) := by
    rw [hdec]; simp
  have hc1 := drop_at hdec2 (show c + (strToBytes nm).length + 1 =
    c + (strToBytes nm ++ [0]).length by simp [List.length_append]; omega)
  have hcread := read_data_c_ok hc1
  -- step 3: dimension
  have hBL : (((strToBytes nm).length : Int) + 6 + 4 * (sh.length : Int) +
      (cs.length : Int) * (w : Int)) + 16 ≤ B := by
    rw [hlenB] at hB
    push_cast at hB
    omega
  have e31 : ((2 : Int) ^ 31) = 2147483648 := by norm_num
  have e31' : ((2 : Int) ^ (8 * 4 - 1)) = 2147483648 := by norm_num
  have hdmlo : -((2 : Int) ^ (8 * 4 - 1)) ≤ dm := by
    rw [hdm, e31']
    have : (0 : Int) ≤ (sh.length : Int) := by positivity
    omega
  have hdmhi : dm < (2 : Int) ^ (8 * 4 - 1) := by
    rw [hdm, e31']
    rw [e31] at hBhi
    have hcw : (0 : Int) ≤ (cs.length : Int) * (w : Int) := by positivity
    omega
  obtain ⟨hnd, hsig⟩ := int_wrap 4 dm (by norm_num) hdmlo hdmhi
  have hdec3 : buf.drop c = (strToBytes nm ++ 0 :: [t]) ++
      (packI32 dm ++ (((sh.map packI32).flatten) ++
        ((cs.map (toLE w)).flatten ++ rest))) := by
    rw [hdec]; simp
  have hc2 := drop_at hdec3 (show c + (strToBytes nm).length + 1 + 1 =
    c + (strToBytes nm ++ 0 :: [t]).length by
      simp only [List.length_append, List.length_cons, List.length_nil]; omega)
  have hpdm : packI32 dm = toLE 4 ((dm % ((2 : Int) ^ (8 * 4))).toNat) := by
    simp [packI32]
  rw [hpdm] at hc2
  have hdimread := read_data_int_ok (Or.inr (Or.inl rfl)) (by norm_num) hnd hc2
  -- dimension checks
  have hdnz : ¬ (dm = 0) := by
    have h0 : 0 < sh.length := List.length_pos.mpr hshne
    rw [hdm]
    intro hh
    have hz : sh.length = 0 := by exact_mod_cast hh
    omega
  have hdnneg : ¬ (dm < 0) := by rw [hdm]; simp
  have hdle : ¬ (dm > B) := by
    rw [hdm]
    have hcw : (0 : Int) ≤ (cs.length : Int) * (w : Int) := by positivity
    omega
  have hbc1 : ∀ k, bytes_check dm B k = .ok () := fun k => by
    simp [bytes_check, hdle]
  have hzn1 : ∀ k, zero_negative_check dm k = .ok () := fun k => by
    unfold zero_negative_check
    rw [if_neg hdnz, if_neg hdnneg]
  -- step 4: the shape reads
  have hdt : dm.toNat = sh.length := by rw [hdm]; simp
  have hdec4 : buf.drop c = (strToBytes nm ++ 0 :: t :: packI32 dm) ++
      (((sh.map packI32).flatten) ++ ((cs.map (toLE w)).flatten ++ rest)) := by
    rw [hdec]; simp
  have hc3 := drop_at hdec4 (show c + (strToBytes nm).length + 1 + 1 + 4 =
    c + (strToBytes nm ++ 0 :: t :: packI32 dm).length by
      simp only [List.length_append, List.length_cons, packI32, toLE_length]; omega)
  have hds : ∀ d ∈ sh, -((2 : Int) ^ 31) ≤ d ∧ d < (2 : Int) ^ 31 := fun d hd =>
    ⟨le_trans (by norm_num) (hge0 d hd), hshlt31 d hd⟩
  have hshr := readI32s_ok hds hc3
  -- step 5: the validation ifs
  have hlne : ¬ (sh.reverse.length ≠ dm.toNat) := by simp [hdt]
  have hnoex : ¬ (∃ x ∈ sh.reverse, B ≤ x) := by
    rintro ⟨x, hx, hBx⟩
    exact absurd hBx (not_le.mpr (hxlt x (List.mem_reverse.mp hx)))
  -- step 6: the cell-count checks
  have hprodrev : prodNat sh.reverse = prodNat sh := by
    unfold prodNat
    rw [List.map_reverse, List.prod_reverse]
  have htot : sh.reverse.foldl (fun acc d => acc * d) 1 =
      ((cs.length : Nat) : Int) := by
    rw [foldl_prod_eq_prodNat sh.reverse
      (fun d hd => hge0 d (List.mem_reverse.mp hd)), hprodrev, hclen]
  have hcsw : ((cs.length : Nat) : Int) ≤ ((cs.length * w : Nat) : Int) := by
    have := Nat.le_mul_of_pos_right cs.length hw
    exact_mod_cast this
  have hprod1 : ¬ (((cs.length : Nat) : Int) > B) := by
    push_cast at hcsw ⊢
    omega
  have hprod2 : ¬ (((cs.length : Nat) : Int) * (w : Int) > B) := by
    push_cast
    omega
  have hbc2 : ∀ k, bytes_check ((cs.length : Nat) : Int) B k = .ok () := fun k => by
    simp [bytes_check, hprod1]
  have hbc3 : ∀ k, bytes_check (((cs.length : Nat) : Int) * (w : Int)) B k = .ok () :=
    fun k => by
      unfold bytes_check
      rw [if_neg hprod2]
  have htne : ¬ (t = DMAP) := by simpa [DMAP] using ht0
  -- step 7: the cells
  have hdec5 : buf.drop c = (strToBytes nm ++ 0 :: t ::
      (packI32 dm ++ (sh.map packI32).flatten)) ++
      ((cs.map (toLE w)).flatten ++ rest) := by
    rw [hdec]; simp
  have hc4 := drop_at hdec5 (show c + (strToBytes nm).length + 1 + 1 + 4 + 4 * sh.length =
    c + (strToBytes nm ++ 0 :: t :: (packI32 dm ++ (sh.map packI32).flatten)).length by
      simp only [List.length_append, List.length_cons, packI32, toLE_length,
        flatten_packI32_length]; omega)
  have hcle : c + (strToBytes nm).length + 1 + 1 + 4 + 4 * sh.length ≤ buf.length := by
    omega
  have hnum := read_numerical_array_ok hw hcle hcb hc4
  -- assembly
  unfold read_array
  simp only [hs, hcread, DmapVal.asStr, DmapVal.asNat, hT, hdimread,
    DmapVal.asInt, hsig, hbc1, hzn1, hdt, hshr, if_neg hlne, if_neg hnozero,
    if_neg hnoex, htot, hbc2, hbc3, if_neg hnotsc, if_neg htne, hnum]
  rw [hlenB]
  rw [show c + (strToBytes nm).length + 1 + 1 + 4 + 4 * sh.length + cs.length * w =
    c + ((strToBytes nm).length + 6 + 4 * sh.length + cs.length * w) by omega]
  rw [if_neg (show ¬ sh.reverse.length ≠ sh.length by simp)]

theorem dmap_array_to_bytes_length (nm : String) (cs : List Nat) (t : Nat)
    (fm : String) (dm : Int) (sh : List Int) (ht : t < 128) :
    (dmap_array_to_bytes ⟨nm, .cells cs, t, fm, dm, sh⟩).length =
      (strToBytes nm).length + 6 + 4 * sh.length + cs.length * fmtWidth fm := by
  rw [array_bytes_decomp _ ht]
  simp only [List.length_append, List.length_cons, arrayDataBytes,
    flatten_toLE_length, flatten_packI32_length, packI32, toLE_length]
  omega

theorem read_array_ok {buf : List Nat} {c : Nat} {a : DmapArray}
    {rest : List Nat} {B : Int}
    (hwf : wfArray a) (h : buf.drop c = dmap_array_to_bytes a ++ rest)
    (hB : (((dmap_array_to_bytes a).length : Nat) : Int) + 16 ≤ B)
    (hBhi : B < (2 : Int) ^ 31) :
    read_array buf c B =
      .ok ({ a with shape := a.shape.reverse }, c + (dmap_array_to_bytes a).length) := by
  obtain ⟨nm, av, t, fm, dm, sh⟩ := a
  obtain ⟨hnum, hnm, hfm, hdm, hshne, hshpos, hshlt, hic, hclen, hcb⟩ := hwf
  dsimp only at hfm hdm hshne hshpos hshlt hic hclen hcb h hB ⊢
  cases av with
  | svals vs => simp [ArrayVal.isCells] at hic
  | cells cs =>
    dsimp only [ArrayVal.cellsD] at hclen hcb
    have hge0 : ∀ d ∈ sh, 0 ≤ d := by
      rcases hshpos with hp | ⟨hsl, hsh0⟩
      · exact fun d hd => le_of_lt (hp d hd)
      · intro d hd
        rw [hsh0] at hd
        simp at hd
        omega
    have hnozero : ¬ ((∃ x ∈ sh.reverse, x ≤ 0) ∧ nm ≠ ("slist")) := by
      rcases hshpos with hp | ⟨hsl, hsh0⟩
      · rintro ⟨⟨x, hx, hx0⟩, hne2⟩
        exact absurd hx0 (not_le.mpr (hp x (List.mem_reverse.mp hx)))
      · rintro ⟨hex, hns⟩
        exact hns hsl
    have ht128 : t < 128 := by
      rcases hnum with rfl | rfl | rfl | rfl | rfl | rfl | rfl | rfl | rfl <;> decide
    have hw' : 0 < widthOfType t := by
      rcases hnum with rfl | rfl | rfl | rfl | rfl | rfl | rfl | rfl | rfl <;> decide
    have hwfw : fmtWidth fm = widthOfType t := by
      rcases hnum with rfl | rfl | rfl | rfl | rfl | rfl | rfl | rfl | rfl <;>
        rw [hfm] <;> decide
    have hlenb := dmap_array_to_bytes_length nm cs t fm dm sh ht128
    have hB2 := hB
    rw [hlenb, hwfw] at hB2
    have hxlt : ∀ x ∈ sh, x < B := by
      intro x hx
      rcases hshpos with hp | ⟨hsl, hsh0⟩
      · have hx0 := hp x hx
        have hmem : x.toNat ∈ sh.map Int.toNat := List.mem_map_of_mem _ hx
        have hone : ∀ y ∈ sh.map Int.toNat, 1 ≤ y := by
          intro y hy
          obtain ⟨d, hd, rfl⟩ := List.mem_map.mp hy
          have := hp d hd
          omega
        have hle : x.toNat ≤ prodNat sh := List.single_le_prod hone _ hmem
        have hle2 : x.toNat ≤ cs.length := by omega
        have hle3 : cs.length ≤ cs.length * widthOfType t :=
          Nat.le_mul_of_pos_right _ hw'
        have hcast : ((x.toNat : Nat) : Int) = x :=
          Int.toNat_of_nonneg (le_of_lt hx0)
        have hle2' : ((x.toNat : Nat) : Int) ≤ ((cs.length : Nat) : Int) := by
          exact_mod_cast hle2
        have hle3' : ((cs.length : Nat) : Int) ≤
            (((cs.length * widthOfType t) : Nat) : Int) := by exact_mod_cast hle3
        push_cast at hle3' hB2
        omega
      · rw [hsh0] at hx
        simp at hx
        subst hx
        push_cast at hB2
        omega
    rcases hnum with rfl | rfl | rfl | rfl | rfl | rfl | rfl | rfl | rfl
    · exact @read_array_ok_core buf c nm cs 2 2 fm dm sh rest B
        (by rw [hfm]; decide) (by decide) (by decide) (by decide)
        (by rw [hfm]; decide) (by rw [hfm]; decide) hnm hdm hshne hge0 hshlt
        hnozero hxlt hclen hcb h hB hBhi
    · exact @read_array_ok_core buf c nm cs 3 4 fm dm sh rest B
        (by rw [hfm]; decide) (by decide) (by decide) (by decide)
        (by rw [hfm]; decide) (by rw [hfm]; decide) hnm hdm hshne hge0 hshlt
        hnozero hxlt hclen hcb h hB hBhi
    · exact @read_array_ok_core buf c nm cs 4 4 fm dm sh rest B
        (by rw [hfm]; decide) (by decide) (by decide) (by decide)
        (by rw [hfm]; decide) (by rw [hfm]; decide) hnm hdm hshne hge0 hshlt
        hnozero hxlt hclen hcb h hB hBhi
    · exact @read_array_ok_core buf c nm cs 8 8 fm dm sh rest B
        (by rw [hfm]; decide) (by decide) (by decide) (by decide)
        (by rw [hfm]; decide) (by rw [hfm]; decide) hnm hdm hshne hge0 hshlt
        hnozero hxlt hclen hcb h hB hBhi
    · exact @read_array_ok_core buf c nm cs 10 8 fm dm sh rest B
        (by rw [hfm]; decide) (by decide) (by decide) (by decide)
        (by rw [hfm]; decide) (by rw [hfm]; decide) hnm hdm hshne hge0 hshlt
        hnozero hxlt hclen hcb h hB hBhi
    · exact @read_array_ok_core buf c nm cs 16 1 fm dm sh rest B
        (by rw [hfm]; decide) (by decide) (by decide) (by decide)
        (by rw [hfm]; decide) (by rw [hfm]; decide) hnm hdm hshne hge0 hshlt
        hnozero hxlt hclen hcb h hB hBhi
    · exact @read_array_ok_core buf c nm cs 17 2 fm dm sh rest B
        (by rw [hfm]; decide) (by decide) (by decide) (by decide)
        (by rw [hfm]; decide) (by rw [hfm]; decide) hnm hdm hshne hge0 hshlt
        hnozero hxlt hclen hcb h hB hBhi
    · exact @read_array_ok_core buf c nm cs 18 4 fm dm sh rest B
        (by rw [hfm]; decide) (by decide) (by decide) (by decide)
        (by rw [hfm]; decide) (by rw [hfm]; decide) hnm hdm hshne hge0 hshlt
        hnozero hxlt hclen hcb h hB hBhi
    · exact @read_array_ok_core buf c nm cs 19 8 fm dm sh rest B
        (by rw [hfm]; decide) (by decide) (by decide) (by decide)
        (by rw [hfm]; decide) (by rw [hfm]; decide) hnm hdm hshne hge0 hshlt
        hnozero hxlt hclen hcb h hB hBhi

theorem odInsert_fresh {r : DmapRecord} {f : DmapField}
    (h : f.name ∉ r.map DmapField.name) : odInsert r f = r ++ [f] := by
  unfold odInsert
  rw [if_neg]
  intro hc
  exact h (List.elem_iff.mp hc)

theorem length_le_flatten {l : List (List Nat)} {x : List Nat} (h : x ∈ l) :
    x.length ≤ l.flatten.length := by
  induction l with
  | nil => simp at h
  | cons y ys ih =>
    rcases List.mem_cons.mp h with rfl | h2
    · rw [List.flatten_cons, List.length_append]; omega
    · rw [List.flatten_cons, List.length_append]
      have := ih h2
      omega

theorem fieldBytes_pos (f : DmapField) : 1 ≤ (fieldBytes f).length := by
  cases f with
  | scalar s =>
    simp [fieldBytes, dmap_scalar_to_bytes, List.length_append]
    omega
  | array a =>
    simp [fieldBytes, dmap_array_to_bytes, List.length_append]
    omega

theorem flatten_count_le (fs : List DmapField) :
    fs.length ≤ ((fs.map fieldBytes).flatten).length := by
  induction fs with
  | nil => simp
  | cons f fs ih =>
    simp only [List.map_cons, List.flatten_cons, List.length_append, List.length_cons]
    have := fieldBytes_pos f
    omega

theorem readScalarLoop_ok {buf : List Nat} {fs : List DmapField} {c : Nat}
    {acc : DmapRecord} {rest : List Nat}
    (hwf : ∀ f ∈ fs, fieldWfScalar f)
    (hnd : (acc.map DmapField.name ++ fs.map DmapField.name).Nodup)
    (h : buf.drop c = ((fs.map fieldBytes).flatten) ++ rest) :
    readScalarLoop buf fs.length c acc =
      .ok (acc ++ fs, c + ((fs.map fieldBytes).flatten).length) := by
  induction fs generalizing c acc with
  | nil => simp [readScalarLoop]
  | cons f fs ih =>
    cases f with
    | array a => exact absurd (hwf (DmapField.array a) (by simp)) (fun hf => hf)
    | scalar s =>
      have hwfs : wfScalar s := hwf (DmapField.scalar s) (by simp)
      have h' : buf.drop c = dmap_scalar_to_bytes s ++
          (((fs.map fieldBytes).flatten) ++ rest) := by
        rw [h]
        simp [fieldBytes, List.append_assoc]
      have hs := read_scalar_ok hwfs h'
      have hfresh : (DmapField.scalar s).name ∉ acc.map DmapField.name := by
        intro hmem
        have hdisj := List.disjoint_of_nodup_append hnd
        exact hdisj hmem (by simp [DmapField.name])
      have hnext : buf.drop (c + (dmap_scalar_to_bytes s).length) =
          ((fs.map fieldBytes).flatten) ++ rest := drop_chunk h'
      have hnd' : ((acc ++ [DmapField.scalar s]).map DmapField.name ++
          fs.map DmapField.name).Nodup := by
        simpa [List.append_assoc] using hnd
      have hrec := ih (fun g hg => hwf g (by simp [hg])) hnd' hnext
      show readScalarLoop buf (fs.length + 1) c acc = _
      unfold readScalarLoop
      simp only [hs]
      rw [odInsert_fresh hfresh, hrec]
      simp [fieldBytes, List.length_append, List.append_assoc]
      omega

theorem readArrayLoop_ok {buf : List Nat} {fs : List DmapField} {c : Nat}
    {acc : DmapRecord} {rest : List Nat} {B : Int}
    (hwf : ∀ f ∈ fs, fieldWfArray f)
    (hBf : ∀ f ∈ fs, (((fieldBytes f).length : Nat) : Int) + 16 ≤ B)
    (hBhi : B < (2 : Int) ^ 31)
    (hnd : (acc.map DmapField.name ++ fs.map DmapField.name).Nodup)
    (h : buf.drop c = ((fs.map fieldBytes).flatten) ++ rest) :
    readArrayLoop buf B fs.length c acc =
      .ok (acc ++ fs.map revShape, c + ((fs.map fieldBytes).flatten).length) := by
  induction fs generalizing c acc with
  | nil => simp [readArrayLoop]
  | cons f fs ih =>
    cases f with
    | scalar s => exact absurd (hwf (DmapField.scalar s) (by simp)) (fun hf => hf)
    | array a =>
      have hwfa : wfArray a := hwf (DmapField.array a) (by simp)
      have h' : buf.drop c = dmap_array_to_bytes a ++
          (((fs.map fieldBytes).flatten) ++ rest) := by
        rw [h]
        simp [fieldBytes, List.append_assoc]
      have ha := read_array_ok hwfa h' (hBf (DmapField.array a) (by simp)) hBhi
      have hfresh : (DmapField.array { a with shape := a.shape.reverse }).name ∉
          acc.map DmapField.name := by
        intro hmem
        have hdisj := List.disjoint_of_nodup_append hnd
        exact hdisj hmem (by simp [DmapField.name])
      have hnext : buf.drop (c + (dmap_array_to_bytes a).length) =
          ((fs.map fieldBytes).flatten) ++ rest := drop_chunk h'
      have hnd' : ((acc ++ [DmapField.array { a with shape := a.shape.reverse }]).map
          DmapField.name ++ fs.map DmapField.name).Nodup := by
        simpa [List.append_assoc, DmapField.name] using hnd
      have hrec := ih (fun g hg => hwf g (by simp [hg]))
        (fun g hg => hBf g (by simp [hg])) hnd' hnext
      show readArrayLoop buf B (fs.length + 1) c acc = _
      unfold readArrayLoop
      simp only [ha]
      rw [odInsert_fresh hfresh, hrec]
      simp [fieldBytes, List.length_append, List.append_assoc, revShape]
      omega

theorem read_record_ok {buf : List Nat} {c : Nat} {r : DmapRecord} {rest : List Nat}
    (hwf : wfRecord r) (h : buf.drop c = dmap_record_to_bytes r ++ rest) :
    read_record buf c = .ok (revRecord r, c + (dmap_record_to_bytes r).length) := by
  obtain ⟨hne1, hne2, hwfs0, hwfa0, hnd, hsize⟩ := hwf
  have key : ∃ ss ars : List DmapField, r = ss ++ ars ∧ ss ≠ [] ∧ ars ≠ [] ∧
      (∀ f ∈ ss, fieldWfScalar f) ∧ (∀ f ∈ ars, fieldWfArray f) :=
    ⟨r.takeWhile DmapField.isScalarB, r.dropWhile DmapField.isScalarB,
      (List.takeWhile_append_dropWhile DmapField.isScalarB r).symm,
      hne1, hne2, hwfs0, hwfa0⟩
  obtain ⟨ss, ars, rfl, hness, hnear, hwfs, hwfa⟩ := key
  -- counts
  have hcs : countScalars (ss ++ ars) = ss.length := by
    unfold countScalars
    rw [List.countP_append]
    have h1 : ss.countP (fun f => match f with
        | DmapField.scalar _ => true | DmapField.array _ => false) = ss.length :=
      List.countP_eq_length.mpr (fun f hf => by
        cases f with
        | scalar s => rfl
        | array a => exact absurd (hwfs _ hf) (fun x => x))
    have h2 : ars.countP (fun f => match f with
        | DmapField.scalar _ => true | DmapField.array _ => false) = 0 :=
      List.countP_eq_zero.mpr (fun f hf => by
        cases f with
        | scalar s => exact absurd (hwfa _ hf) (fun x => x)
        | array a => simp)
    omega
  have hca : countArrays (ss ++ ars) = ars.length := by
    unfold countArrays
    rw [List.countP_append]
    have h1 : ss.countP (fun f => match f with
        | DmapField.scalar _ => false | DmapField.array _ => true) = 0 :=
      List.countP_eq_zero.mpr (fun f hf => by
        cases f with
        | scalar s => simp
        | array a => exact absurd (hwfs _ hf) (fun x => x))
    have h2 : ars.countP (fun f => match f with
        | DmapField.scalar _ => false | DmapField.array _ => true) = ars.length :=
      List.countP_eq_length.mpr (fun f hf => by
        cases f with
        | scalar s => exact absurd (hwfa _ hf) (fun x => x)
        | array a => rfl)
    omega
  -- abbreviations for the two data segments
  have hdata : (((ss ++ ars).map fieldBytes).flatten) =
      ((ss.map fieldBytes).flatten) ++ ((ars.map fieldBytes).flatten) := by
    rw [List.map_append, List.flatten_append]
  have hrb : dmap_record_to_bytes (ss ++ ars) =
      packI32 65537 ++ (packI32 ((((ss.map fieldBytes).flatten).length : Int) +
        (((ars.map fieldBytes).flatten).length : Int) + 16) ++
        (packI32 ((ss.length : Int)) ++ (packI32 ((ars.length : Int)) ++
          (((ss.map fieldBytes).flatten) ++ ((ars.map fieldBytes).flatten))))) := by
    unfold dmap_record_to_bytes
    rw [hdata, hcs, hca]
    dsimp only
    rw [List.length_append]
    push_cast
    simp [List.append_assoc]
  have hrl : (dmap_record_to_bytes (ss ++ ars)).length =
      16 + (((ss.map fieldBytes).flatten).length + ((ars.map fieldBytes).flatten).length) := by
    rw [hrb]
    simp [List.length_append, packI32, toLE_length]
    omega
  have hsizeL : ((ss.map fieldBytes).flatten).length +
      ((ars.map fieldBytes).flatten).length + 16 < 2 ^ 31 := by
    rw [hdata, List.length_append] at hsize
    omega
  have hfull : buf.drop c = packI32 65537 ++
      (packI32 ((((ss.map fieldBytes).flatten).length : Int) +
        (((ars.map fieldBytes).flatten).length : Int) + 16) ++
        (packI32 ((ss.length : Int)) ++ (packI32 ((ars.length : Int)) ++
          (((ss.map fieldBytes).flatten) ++ (((ars.map fieldBytes).flatten) ++ rest))))) := by
    rw [h, hrb]
    simp [List.append_assoc]
  have hbuflen : buf.length = c + 16 + (((ss.map fieldBytes).flatten).length +
      ((ars.map fieldBytes).flatten).length) + rest.length := by
    have h1 := congrArg List.length h
    rw [List.length_drop, List.length_append, hrl] at h1
    have h2 := congrArg List.length hfull
    rw [List.length_drop] at h2
    simp only [List.length_append] at h2
    omega
  -- block size read
  have e31' : ((2 : Int) ^ (8 * 4 - 1)) = 2147483648 := by norm_num
  have h2 := drop_at hfull (show c + 4 = c + (packI32 65537).length by
    simp [packI32, toLE_length])
  obtain ⟨hnb, hsigb⟩ := int_wrap 4
    ((((ss.map fieldBytes).flatten).length : Int) +
      (((ars.map fieldBytes).flatten).length : Int) + 16)
    (by norm_num)
    (by rw [e31']; push_cast; omega)
    (by rw [e31']; push_cast; omega)
  have hpb : packI32 ((((ss.map fieldBytes).flatten).length : Int) +
      (((ars.map fieldBytes).flatten).length : Int) + 16) =
      toLE 4 ((((((ss.map fieldBytes).flatten).length : Int) +
        (((ars.map fieldBytes).flatten).length : Int) + 16) % ((2 : Int) ^ (8 * 4))).toNat) := by
    simp [packI32]
  rw [hpb] at h2
  have hbsread := read_data_int_ok (Or.inr (Or.inl rfl)) (by norm_num) hnb h2
  -- num_scalars / num_arrays reads
  have h3 := drop_at h2 (show c + 4 + 4 = c + 4 + (toLE 4 ((((((ss.map fieldBytes).flatten).length : Int) +
      (((ars.map fieldBytes).flatten).length : Int) + 16) % ((2 : Int) ^ (8 * 4))).toNat)).length by
    simp [toLE_length])
  obtain ⟨hnn, hsign⟩ := int_wrap 4 ((ss.length : Int)) (by norm_num)
    (by rw [e31']; push_cast; omega)
    (by
      rw [e31']
      have := flatten_count_le ss
      push_cast
      omega)
  have hpn : packI32 ((ss.length : Int)) =
      toLE 4 ((((ss.length : Int)) % ((2 : Int) ^ (8 * 4))).toNat) := by
    simp [packI32]
  rw [hpn] at h3
  have hnsread := read_data_int_ok (Or.inr (Or.inl rfl)) (by norm_num) hnn h3
  have h4 := drop_at h3 (show c + 4 + 4 + 4 = c + 4 + 4 +
      (toLE 4 ((((ss.length : Int)) % ((2 : Int) ^ (8 * 4))).toNat)).length by
    simp [toLE_length])
  obtain ⟨hna2, hsiga⟩ := int_wrap 4 ((ars.length : Int)) (by norm_num)
    (by rw [e31']; push_cast; omega)
    (by
      rw [e31']
      have := flatten_count_le ars
      push_cast
      omega)
  have hpa : packI32 ((ars.length : Int)) =
      toLE 4 ((((ars.length : Int)) % ((2 : Int) ^ (8 * 4))).toNat) := by
    simp [packI32]
  rw [hpa] at h4
  have hnaread := read_data_int_ok (Or.inr (Or.inl rfl)) (by norm_num) hna2 h4
  have h5 := drop_at h4 (show c + 4 + 4 + 4 + 4 = c + 4 + 4 + 4 +
      (toLE 4 ((((ars.length : Int)) % ((2 : Int) ^ (8 * 4))).toNat)).length by
    simp [toLE_length])
  -- the header checks
  have hrem : ¬ ((((ss.map fieldBytes).flatten).length : Int) +
      (((ars.map fieldBytes).flatten).length : Int) + 16 >
      ((buf.length : Nat) : Int) - (((c + 4 + 4 : Nat) : Int)) + 8) := by
    rw [hbuflen]
    push_cast
    omega
  have hbs0 : ¬ ((((ss.map fieldBytes).flatten).length : Int) +
      (((ars.map fieldBytes).flatten).length : Int) + 16 = 0) := by
    push_cast
    omega
  have hbsneg : ¬ ((((ss.map fieldBytes).flatten).length : Int) +
      (((ars.map fieldBytes).flatten).length : Int) + 16 < 0) := by
    push_cast
    omega
  have hns0 : ¬ (((ss.length : Nat) : Int) = 0) := by
    have : 0 < ss.length := List.length_pos.mpr hness
    push_cast
    omega
  have hnsneg : ¬ (((ss.length : Nat) : Int) < 0) := by push_cast; omega
  have hna0 : ¬ (((ars.length : Nat) : Int) = 0) := by
    have : 0 < ars.length := List.length_pos.mpr hnear
    push_cast
    omega
  have hnaneg : ¬ (((ars.length : Nat) : Int) < 0) := by push_cast; omega
  have hsum : ¬ (((ss.length : Nat) : Int) + ((ars.length : Nat) : Int) >
      (((ss.map fieldBytes).flatten).length : Int) +
      (((ars.map fieldBytes).flatten).length : Int) + 16) := by
    have t1 := flatten_count_le ss
    have t2 := flatten_count_le ars
    push_cast
    omega
  -- the two loops
  have htn1 : (((ss.length : Nat) : Int)).toNat = ss.length := by simp
  have htn2 : (((ars.length : Nat) : Int)).toNat = ars.length := by simp
  have hnd1 : (([] : DmapRecord).map DmapField.name ++ ss.map DmapField.name).Nodup := by
    simpa using List.Nodup.of_append_left (by simpa [List.map_append] using hnd)
  have hlay1 : buf.drop (c + 4 + 4 + 4 + 4) = ((ss.map fieldBytes).flatten) ++
      (((ars.map fieldBytes).flatten) ++ rest) := by
    rw [h5]
  have hloop1 := readScalarLoop_ok hwfs hnd1 hlay1
  have hnd2 : ((([] ++ ss : DmapRecord)).map DmapField.name ++
      ars.map DmapField.name).Nodup := by
    simpa [List.map_append] using hnd
  have hlay2 : buf.drop (c + 4 + 4 + 4 + 4 + ((ss.map fieldBytes).flatten).length) =
      ((ars.map fieldBytes).flatten) ++ rest := drop_chunk hlay1
  have hBf : ∀ f ∈ ars, (((fieldBytes f).length : Nat) : Int) + 16 ≤
      (((ss.map fieldBytes).flatten).length : Int) +
      (((ars.map fieldBytes).flatten).length : Int) + 16 := by
    intro f hf
    have : (fieldBytes f).length ≤ ((ars.map fieldBytes).flatten).length :=
      length_le_flatten (List.mem_map_of_mem _ hf)
    push_cast
    omega
  have hBhi2 : (((ss.map fieldBytes).flatten).length : Int) +
      (((ars.map fieldBytes).flatten).length : Int) + 16 < (2 : Int) ^ 31 := by
    push_cast
    omega
  have hloop2 := readArrayLoop_ok hwfa hBf hBhi2 hnd2 hlay2
  -- cursor coherence
  have hcur : ¬ ((((c + 4 + 4 + 4 + 4 + ((ss.map fieldBytes).flatten).length +
      ((ars.map fieldBytes).flatten).length : Nat) : Int)) - ((c : Nat) : Int) ≠
      (((ss.map fieldBytes).flatten).length : Int) +
      (((ars.map fieldBytes).flatten).length : Int) + 16) := by
    push_cast
    omega
  -- final record shape
  have hssrev : ss.map revShape = ss := by
    have hh : ss.map revShape = ss.map id := List.map_congr_left (fun f hf => by
      cases f with
      | scalar s => rfl
      | array a => exact absurd (hwfs _ hf) (fun x => x))
    rw [hh, List.map_id]
  -- assembly
  unfold read_record
  simp only [hbsread, DmapVal.asInt, hsigb, bytes_check, if_neg hrem,
    zero_negative_check, if_neg hbs0, if_neg hbsneg, hnsread, hnaread,
    hsign, hsiga, if_neg hns0, if_neg hnsneg, if_neg hna0, if_neg hnaneg,
    if_neg hsum, htn1, htn2, hloop1, hloop2, if_neg hcur]
  rw [hrl]
  rw [show c + 4 + 4 + 4 + 4 + ((ss.map fieldBytes).flatten).length +
      ((ars.map fieldBytes).flatten).length =
    c + (16 + (((ss.map fieldBytes).flatten).length +
      ((ars.map fieldBytes).flatten).length)) by omega]
  unfold revRecord
  rw [List.map_append, hssrev]
  simp

theorem record_bytes_pos (r : DmapRecord) : 16 ≤ (dmap_record_to_bytes r).length := by
  unfold dmap_record_to_bytes
  simp [List.length_append, packI32, toLE_length]
  omega

theorem records_count_le (recs : List DmapRecord) :
    recs.length ≤ ((recs.map dmap_record_to_bytes).flatten).length := by
  induction recs with
  | nil => simp
  | cons r rs ih =>
    simp only [List.map_cons, List.flatten_cons, List.length_append, List.length_cons]
    have := record_bytes_pos r
    omega

theorem readRecordsAux_skip {buf : List Nat} {recs : List DmapRecord} {c : Nat}
    {acc : List DmapRecord} {fuel : Nat} {P : List Nat}
    (hwf : ∀ r ∈ recs, wfRecord r)
    (hfuel : recs.length < fuel)
    (h : buf.drop c = ((recs.map dmap_record_to_bytes).flatten) ++ P) :
    readRecordsAux buf fuel c acc =
      readRecordsAux buf (fuel - recs.length)
        (c + ((recs.map dmap_record_to_bytes).flatten).length)
        (acc ++ recs.map revRecord) := by
  induction recs generalizing c acc fuel with
  | nil => simp
  | cons r rs ih =>
    obtain ⟨f, rfl⟩ : ∃ f, fuel = f + 1 := ⟨fuel - 1, by omega⟩
    have h' : buf.drop c = dmap_record_to_bytes r ++
        (((rs.map dmap_record_to_bytes).flatten) ++ P) := by
      rw [h]
      simp [List.append_assoc]
    have hclt : c < buf.length := by
      have h1 := congrArg List.length h'
      rw [List.length_drop] at h1
      simp only [List.length_append] at h1
      have := record_bytes_pos r
      omega
    have hrr := read_record_ok (hwf r (by simp)) h'
    have hnext : buf.drop (c + (dmap_record_to_bytes r).length) =
        ((rs.map dmap_record_to_bytes).flatten) ++ P := drop_chunk h'
    have hrec := @ih (c + (dmap_record_to_bytes r).length) (acc ++ [revRecord r]) f
      (fun x hx => hwf x (by simp [hx]))
      (by simp only [List.length_cons] at hfuel; omega) hnext
    have e1 : f - rs.length = f + 1 - (r :: rs).length := by
      simp only [List.length_cons]
      omega
    have e2 : c + (dmap_record_to_bytes r).length +
        ((rs.map dmap_record_to_bytes).flatten).length =
      c + (((r :: rs).map dmap_record_to_bytes).flatten).length := by
      simp only [List.map_cons, List.flatten_cons, List.length_append]
      omega
    have e3 : (acc ++ [revRecord r]) ++ rs.map revRecord =
        acc ++ (r :: rs).map revRecord := by simp
    show readRecordsAux buf (f + 1) c acc = _
    conv_lhs => rw [readRecordsAux]
    rw [if_pos hclt]
    simp only [hrr, hrec, e1, e2, e3]

theorem read_records_ok {recs : List DmapRecord}
    (hwf : ∀ r ∈ recs, wfRecord r) :
    read_records ((recs.map dmap_record_to_bytes).flatten) =
      .ok (recs.map revRecord) := by
  have hcount := records_count_le recs
  have hskip := @readRecordsAux_skip ((recs.map dmap_record_to_bytes).flatten) recs 0
    [] (((recs.map dmap_record_to_bytes).flatten).length + 1) [] hwf (by omega)
    (by simp)
  unfold read_records
  rw [hskip]
  obtain ⟨k, hk⟩ : ∃ k, ((recs.map dmap_record_to_bytes).flatten).length + 1 -
      recs.length = k + 1 :=
    ⟨((recs.map dmap_record_to_bytes).flatten).length - recs.length, by omega⟩
  rw [hk]
  unfold readRecordsAux
  rw [if_neg (show ¬ (0 + ((recs.map dmap_record_to_bytes).flatten).length <
    ((recs.map dmap_record_to_bytes).flatten).length) by omega)]
  simp

theorem write_dmap_stream_ok {recs : List DmapRecord} (hne : recs ≠ []) :
    write_dmap_stream recs [] = .ok ((recs.map dmap_record_to_bytes).flatten) := by
  simp [write_dmap_stream, dmap_records_to_bytes, hne]

theorem dmapRead_ok {recs : List DmapRecord} (hwf : ∀ r ∈ recs, wfRecord r)
    (hne : recs ≠ []) :
    dmapRead ((recs.map dmap_record_to_bytes).flatten) = .ok (recs.map revRecord) := by
  have hlen : ((recs.map dmap_record_to_bytes).flatten).length ≠ 0 := by
    obtain ⟨r, rs, rfl⟩ := List.exists_cons_of_ne_nil hne
    simp only [List.map_cons, List.flatten_cons, List.length_append]
    have := record_bytes_pos r
    omega
  unfold dmapRead
  rw [if_neg hlen, read_records_ok hwf]

/-- C1 (amended): decoding the bytes produced by encoding a well-formed
record set yields the records field-for-field — names, values, types and
dimension counts unchanged — EXCEPT that every array's logical shape comes
back in reversed order (the writer does not mirror the reader's dimension
reversal); the claimed record equality therefore holds exactly for arrays
whose shape equals its own reverse, as in the scenario's [2,2]. -/
theorem c1_round_trip_amended {recs : List DmapRecord} {buf : List Nat}
    (hwf : ∀ r ∈ recs, wfRecord r)
    (henc : write_dmap_stream recs [] = .ok buf) :
    dmapRead buf = .ok (recs.map revRecord) := by
  have hne : recs ≠ [] := by
    intro h0
    subst h0
    simp [write_dmap_stream] at henc
  rw [write_dmap_stream_ok hne] at henc
  simp only [Except.ok.injEq] at henc
  subst henc
  exact dmapRead_ok hwf hne

/-- C1 witness: the spec's scenario record (int16 `stid` = 7, float32
`data` of shape [2,2]) encodes under raw mode and decodes back; its [2,2]
shape is its own reverse, so the decoded record set equals the original. -/
theorem c1_round_trip_witness :
    dmapRead (dmap_records_to_bytes [c1record]) = .ok ([c1record].map revRecord) ∧
    [c1record].map revRecord = [c1record] :=
  ⟨c1_round_trip_amended (by decide) (by decide), by decide⟩

/-- C1 counterexample: for the record holding a well-formed int16 array of
logical shape [1,2], encode-then-decode returns the array with shape [2,1],
so `decode(encode(R)) = R` fails as stated. -/
theorem c1_round_trip_counterexample :
    write_dmap_stream [cxRecord] [] = .ok cxBuf ∧
    dmapRead cxBuf = .ok [revRecord cxRecord] ∧
    dmapRead cxBuf ≠ .ok [cxRecord] := by decide

/-- C2 (code evaluated at the failing input): `dmap_array_to_bytes` writes
the dimension sizes of the shape-[1,2] array to the wire in LOGICAL order
(bytes 8-15 hold 1 then 2, little-endian), NOT in the reverse order the
claim states; the decoder then reverses what it reads, so the decoded
logical shape is [2,1], not [1,2] — the encoder does not mirror the
decoder. -/
theorem c2_encoder_shape_order :
    dmap_array_to_bytes cxArray =
      [100, 97, 0, 2, 2, 0, 0, 0, 1, 0, 0, 0, 2, 0, 0, 0, 5, 0, 6, 0] ∧
    read_array (dmap_array_to_bytes cxArray) 0 40 =
      .ok (⟨("da"), .cells [5, 6], 2, ("h"), 2, [2, 1]⟩, 20) := by decide

theorem read_array_rejects_zero_dim
    {buf : List Nat} {c : Nat} {nm : String} {t w : Nat} {fm : String}
    {dm : Int} {sh : List Int} {av : ArrayVal} {rest : List Nat} {B : Int}
    (hT : DMAP_DATA_TYPES t = some ((fm, w)))
    (ht128 : t < 128)
    (hnm : validAscii nm) (hdm : dm = (sh.length : Int)) (hshne : sh ≠ [])
    (hbound : ∀ d ∈ sh, -((2 : Int) ^ 31) ≤ d ∧ d < (2 : Int) ^ 31)
    (hzero : ∃ x ∈ sh, x ≤ 0) (hname : nm ≠ ("slist"))
    (hdimle : dm ≤ B) (hBhi : B < (2 : Int) ^ 31)
    (h : buf.drop c = dmap_array_to_bytes ⟨nm, av, t, fm, dm, sh⟩ ++ rest) :
    read_array buf c B = .error (.dmapDataError ("zero_dimension")) := by
  have hdec : buf.drop c = strToBytes nm ++ 0 :: t ::
      (packI32 dm ++ (((sh.map packI32).flatten) ++
        (arrayDataBytes ⟨nm, av, t, fm, dm, sh⟩ ++ rest))) := by
    rw [h, array_bytes_decomp _ ht128]
    simp [List.append_assoc]
  have hs := read_data_s_ok hnm hdec
  have hdec2 : buf.drop c = (strToBytes nm ++ [0]) ++ (t ::
      (packI32 dm ++ (((sh.map packI32).flatten) ++
        (arrayDataBytes ⟨nm, av, t, fm, dm, sh⟩ ++ rest)))) := by
    rw [hdec]; simp
  have hc1 := drop_at hdec2 (show c + (strToBytes nm).length + 1 =
    c + (strToBytes nm ++ [0]).length by simp [List.length_append]; omega)
  have hcread := read_data_c_ok hc1
  have e31' : ((2 : Int) ^ (8 * 4 - 1)) = 2147483648 := by norm_num
  have hdmlo : -((2 : Int) ^ (8 * 4 - 1)) ≤ dm := by
    rw [hdm, e31']
    have : (0 : Int) ≤ (sh.length : Int) := by positivity
    omega
  have hdmhi : dm < (2 : Int) ^ (8 * 4 - 1) := by
    rw [e31']
    have e31 : ((2 : Int) ^ 31) = 2147483648 := by norm_num
    rw [e31] at hBhi
    omega
  obtain ⟨hnd, hsig⟩ := int_wrap 4 dm (by norm_num) hdmlo hdmhi
  have hdec3 : buf.drop c = (strToBytes nm ++ 0 :: [t]) ++
      (packI32 dm ++ (((sh.map packI32).flatten) ++
        (arrayDataBytes ⟨nm, av, t, fm, dm, sh⟩ ++ rest))) := by
    rw [hdec]; simp
  have hc2 := drop_at hdec3 (show c + (strToBytes nm).length + 1 + 1 =
    c + (strToBytes nm ++ 0 :: [t]).length by
      simp only [List.length_append, List.length_cons, List.length_nil]; omega)
  have hpdm : packI32 dm = toLE 4 ((dm % ((2 : Int) ^ (8 * 4))).toNat) := by
    simp [packI32]
  rw [hpdm] at hc2
  have hdimread := read_data_int_ok (Or.inr (Or.inl rfl)) (by norm_num) hnd hc2
  have hdnz : ¬ (dm = 0) := by
    have h0 : 0 < sh.length := List.length_pos.mpr hshne
    rw [hdm]
    intro hh
    have hz : sh.length = 0 := by exact_mod_cast hh
    omega
  have hdnneg : ¬ (dm < 0) := by rw [hdm]; simp
  have hdle : ¬ (dm > B) := not_lt.mpr hdimle
  have hbc1 : ∀ k, bytes_check dm B k = .ok () := fun k => by
    simp [bytes_check, hdle]
  have hzn1 : ∀ k, zero_negative_check dm k = .ok () := fun k => by
    unfold zero_negative_check
    rw [if_neg hdnz, if_neg hdnneg]
  have hdt : dm.toNat = sh.length := by rw [hdm]; simp
  have hdec4 : buf.drop c = (strToBytes nm ++ 0 :: t :: packI32 dm) ++
      (((sh.map packI32).flatten) ++
        (arrayDataBytes ⟨nm, av, t, fm, dm, sh⟩ ++ rest)) := by
    rw [hdec]; simp
  have hc3 := drop_at hdec4 (show c + (strToBytes nm).length + 1 + 1 + 4 =
    c + (strToBytes nm ++ 0 :: t :: packI32 dm).length by
      simp only [List.length_append, List.length_cons, packI32, toLE_length]; omega)
  have hshr := readI32s_ok hbound hc3
  have hlne : ¬ (sh.reverse.length ≠ dm.toNat) := by simp [hdt]
  have hpos : (∃ x ∈ sh.reverse, x ≤ 0) ∧ nm ≠ ("slist") := by
    obtain ⟨x, hx, hx0⟩ := hzero
    exact ⟨⟨x, List.mem_reverse.mpr hx, hx0⟩, hname⟩
  unfold read_array
  simp only [hs, hcread, DmapVal.asStr, DmapVal.asNat, hT, hdimread,
    DmapVal.asInt, hsig, hbc1, hzn1, hdt, hshr, if_neg hlne, if_pos hpos]
  rw [if_neg (show ¬ sh.reverse.length ≠ sh.length by simp)]

/-- C3 (amended): the zero-length-dimension rule exists at DECODE only.
First conjunct: an encoded array whose shape contains a dimension ≤ 0 under
any name other than `slist` is rejected by `read_array` with the
zero-dimension `DmapDataError`. Second conjunct: a well-formed `slist`
array (whose sentinel shape [0] the well-formedness predicate admits)
decodes successfully. The encoder performs no such validation — see the
counterexample. -/
theorem c3_zero_dim_rule :
    (∀ (buf : List Nat) (c : Nat) (nm : String) (t w : Nat) (fm : String)
        (dm : Int) (sh : List Int) (av : ArrayVal) (rest : List Nat) (B : Int),
      DMAP_DATA_TYPES t = some ((fm, w)) → t < 128 → validAscii nm →
      dm = (sh.length : Int) → sh ≠ [] →
      (∀ d ∈ sh, -((2 : Int) ^ 31) ≤ d ∧ d < (2 : Int) ^ 31) →
      (∃ x ∈ sh, x ≤ 0) → nm ≠ ("slist") → dm ≤ B → B < (2 : Int) ^ 31 →
      buf.drop c = dmap_array_to_bytes ⟨nm, av, t, fm, dm, sh⟩ ++ rest →
      read_array buf c B = .error (.dmapDataError ("zero_dimension"))) ∧
    (∀ (buf : List Nat) (c : Nat) (a : DmapArray) (rest : List Nat) (B : Int),
      wfArray a → a.name = ("slist") →
      buf.drop c = dmap_array_to_bytes a ++ rest →
      (((dmap_array_to_bytes a).length : Nat) : Int) + 16 ≤ B →
      B < (2 : Int) ^ 31 →
      read_array buf c B =
        .ok ({ a with shape := a.shape.reverse },
          c + (dmap_array_to_bytes a).length)) :=
  ⟨fun _ _ _ _ _ _ _ _ _ _ _ hT ht hnm hdm hne hb hz hn hle hhi h =>
    read_array_rejects_zero_dim hT ht hnm hdm hne hb hz hn hle hhi h,
   fun _ _ _ _ _ hwf _ h hB hBhi => read_array_ok hwf h hB hBhi⟩

/-- C3 witness: the shape-[0] array named `foo` is rejected by decode with
the zero-dimension error, while the shape-[0] `slist` sentinel decodes
successfully. -/
theorem c3_zero_dim_rule_witness :
    read_array (dmap_array_to_bytes zeroDimArray) 0 40 =
      .error (.dmapDataError ("zero_dimension")) ∧
    read_array (dmap_array_to_bytes slistArray) 0 40 =
      .ok ({ slistArray with shape := slistArray.shape.reverse },
        0 + (dmap_array_to_bytes slistArray).length) :=
  ⟨c3_zero_dim_rule.1 (dmap_array_to_bytes zeroDimArray) 0 ("foo") 2 2 ("h")
      1 [0] (.cells []) [] 40 (by decide) (by decide) (by decide) (by decide)
      (by decide) (by decide) (by decide) (by decide) (by decide) (by decide)
      (by decide),
   c3_zero_dim_rule.2 (dmap_array_to_bytes slistArray) 0 slistArray [] 40
      (by decide) (by decide) (by decide) (by decide) (by decide)⟩

/-- C3 counterexample (encode side): a record holding the non-`slist`
zero-dimension array passes the full encode-time validation pipeline
(extra/missing/type checks) and raw-mode encoding without any error — the
encoder applies no shape rule at all, contradicting the claim that
encode-time validation rejects such arrays. -/
theorem c3_encode_no_shape_check :
    superDARN_file_structure_to_bytes
        [[(("st"), ("h")), (("foo"), ("h"))]] [zeroDimRecord] 0 =
      .ok (dmap_record_to_bytes zeroDimRecord) ∧
    write_dmap_stream [zeroDimRecord] [] =
      .ok (dmap_records_to_bytes [zeroDimRecord]) := by decide

theorem dmap_record_to_bytes_decomp (r : DmapRecord) :
    dmap_record_to_bytes r = packI32 65537 ++
      (packI32 ((((r.map fieldBytes).flatten).length : Int) + 16) ++
        (packI32 ((countScalars r : Int)) ++ (packI32 ((countArrays r : Int)) ++
          (r.map fieldBytes).flatten))) := by
  unfold dmap_record_to_bytes
  dsimp only
  simp [List.append_assoc]

theorem dmap_record_to_bytes_len (r : DmapRecord) :
    (dmap_record_to_bytes r).length = 16 + ((r.map fieldBytes).flatten).length := by
  rw [dmap_record_to_bytes_decomp]
  simp [List.length_append, packI32, toLE_length]
  omega

theorem read_record_truncated {buf : List Nat} {c p : Nat} {R : DmapRecord}
    (hwfR : wfRecord R)
    (hp0 : 0 < p) (hplt : p < (dmap_record_to_bytes R).length)
    (h : buf.drop c = (dmap_record_to_bytes R).take p) :
    read_record buf c = .error (.cursorError (c + 4)) ∨
    read_record buf c = .error (.mismatchByte (c + 4 + 4)) := by
  obtain ⟨_, _, _, _, _, hsize⟩ := hwfR
  have hbuflen : buf.length = c + p := by
    have h1 := congrArg List.length h
    rw [List.length_drop, List.length_take] at h1
    have hc : c ≤ buf.length := by
      by_contra hc
      push_neg at hc
      rw [List.drop_eq_nil_of_le (le_of_lt hc)] at h
      have := congrArg List.length h
      rw [List.length_take] at this
      simp at this
      omega
    omega
  by_cases hp8 : p < 8
  · left
    have hrd : read_data buf (c + 4) ("i") 4 = .error (.cursorError (c + 4)) := by
      unfold read_data
      by_cases h1 : buf.length ≤ c + 4
      · rw [if_pos h1]
      · rw [if_neg h1, if_pos (by omega)]
    unfold read_record
    simp only [hrd]
  · right
    push_neg at hp8
    have hL := dmap_record_to_bytes_len R
    have e31' : ((2 : Int) ^ (8 * 4 - 1)) = 2147483648 := by norm_num
    obtain ⟨hnb, hsigb⟩ := int_wrap 4
      ((((R.map fieldBytes).flatten).length : Int) + 16) (by norm_num)
      (by rw [e31']; push_cast; omega)
      (by rw [e31']; push_cast; omega)
    have htake : (dmap_record_to_bytes R).take p = packI32 65537 ++
        (packI32 ((((R.map fieldBytes).flatten).length : Int) + 16) ++
          ((packI32 ((countScalars R : Int)) ++ (packI32 ((countArrays R : Int)) ++
            (R.map fieldBytes).flatten)).take (p - 8))) := by
      rw [dmap_record_to_bytes_decomp]
      rw [show packI32 65537 ++
          (packI32 ((((R.map fieldBytes).flatten).length : Int) + 16) ++
            (packI32 ((countScalars R : Int)) ++ (packI32 ((countArrays R : Int)) ++
              (R.map fieldBytes).flatten))) =
        (packI32 65537 ++ packI32 ((((R.map fieldBytes).flatten).length : Int) + 16)) ++
          (packI32 ((countScalars R : Int)) ++ (packI32 ((countArrays R : Int)) ++
            (R.map fieldBytes).flatten)) by simp [List.append_assoc]]
      rw [List.take_append_eq_append_take]
      rw [List.take_of_length_le (by simp [List.length_append, packI32, toLE_length]; omega)]
      rw [show ((packI32 65537 ++ packI32 ((((R.map fieldBytes).flatten).length : Int) +
        16)).length) = 8 by simp [List.length_append, packI32, toLE_length]]
      simp [List.append_assoc]
    have hdec : buf.drop c = packI32 65537 ++
        (packI32 ((((R.map fieldBytes).flatten).length : Int) + 16) ++
          ((packI32 ((countScalars R : Int)) ++ (packI32 ((countArrays R : Int)) ++
            (R.map fieldBytes).flatten)).take (p - 8))) := by
      rw [h, htake]
    have h2 := drop_at hdec (show c + 4 = c + (packI32 65537).length by
      simp [packI32, toLE_length])
    have hpb : packI32 ((((R.map fieldBytes).flatten).length : Int) + 16) =
        toLE 4 (((((R.map fieldBytes).flatten).length : Int) + 16) %
          ((2 : Int) ^ (8 * 4))).toNat := by
      simp [packI32]
    rw [hpb] at h2
    have hbsread := read_data_int_ok (Or.inr (Or.inl rfl)) (by norm_num) hnb h2
    have hgt : (((R.map fieldBytes).flatten).length : Int) + 16 >
        ((buf.length : Nat) : Int) - (((c + 4 + 4 : Nat) : Int)) + 8 := by
      rw [hbuflen]
      push_cast
      omega
    unfold read_record
    simp only [hbsread, DmapVal.asInt, hsigb, bytes_check, if_pos hgt]

/-- C6 (amended): truncating a valid multi-record buffer ANYWHERE INSIDE a
record makes decode fail with a `CursorMismatch` or `SizeMismatch` error;
a truncation landing exactly on a record boundary, however, decodes
silently to the shorter record set (see the counterexample). Here the
buffer is a concatenation of well-formed encoded records followed by a
strict non-empty prefix of one more encoded record. -/
theorem c6_truncation_inside_record {recs : List DmapRecord} {R : DmapRecord}
    {p : Nat}
    (hwf : ∀ r ∈ recs, wfRecord r) (hwfR : wfRecord R)
    (hp0 : 0 < p) (hplt : p < (dmap_record_to_bytes R).length) :
    read_records ((recs.map dmap_record_to_bytes).flatten ++
        (dmap_record_to_bytes R).take p) =
      .error (.cursorError (((recs.map dmap_record_to_bytes).flatten).length + 4)) ∨
    read_records ((recs.map dmap_record_to_bytes).flatten ++
        (dmap_record_to_bytes R).take p) =
      .error (.mismatchByte (((recs.map dmap_record_to_bytes).flatten).length + 4 + 4)) := by
  have hcount := records_count_le recs
  have hptake : ((dmap_record_to_bytes R).take p).length = p :=
    List.length_take_of_le (le_of_lt hplt)
  have hbuflen : ((recs.map dmap_record_to_bytes).flatten ++
      (dmap_record_to_bytes R).take p).length =
      ((recs.map dmap_record_to_bytes).flatten).length + p := by
    rw [List.length_append, hptake]
  have hskip := @readRecordsAux_skip
    ((recs.map dmap_record_to_bytes).flatten ++ (dmap_record_to_bytes R).take p)
    recs 0 []
    (((recs.map dmap_record_to_bytes).flatten ++
      (dmap_record_to_bytes R).take p).length + 1)
    ((dmap_record_to_bytes R).take p) hwf (by rw [hbuflen]; omega) (by simp)
  have hdropL : ((recs.map dmap_record_to_bytes).flatten ++
      (dmap_record_to_bytes R).take p).drop
        (0 + ((recs.map dmap_record_to_bytes).flatten).length) =
      (dmap_record_to_bytes R).take p := by
    rw [Nat.zero_add, List.drop_left]
  have htr := read_record_truncated hwfR hp0 hplt hdropL
  obtain ⟨k, hk⟩ : ∃ k, ((recs.map dmap_record_to_bytes).flatten ++
      (dmap_record_to_bytes R).take p).length + 1 - recs.length = k + 1 :=
    ⟨((recs.map dmap_record_to_bytes).flatten ++
      (dmap_record_to_bytes R).take p).length - recs.length,
      by rw [hbuflen]; omega⟩
  have hlt : 0 + ((recs.map dmap_record_to_bytes).flatten).length <
      ((recs.map dmap_record_to_bytes).flatten ++
        (dmap_record_to_bytes R).take p).length := by
    rw [hbuflen]
    omega
  rcases htr with htr | htr
  · left
    unfold read_records
    rw [hskip, hk]
    unfold readRecordsAux
    rw [if_pos hlt]
    simp only [Nat.zero_add] at htr ⊢
    simp only [htr]
  · right
    unfold read_records
    rw [hskip, hk]
    unfold readRecordsAux
    rw [if_pos hlt]
    simp only [Nat.zero_add] at htr ⊢
    simp only [htr]

/-- C6 witness: one whole record followed by a 1-byte stub of a second one
fails to decode, with the errors the theorem names. -/
theorem c6_truncation_witness :
    read_records (dmap_records_to_bytes [cxRecord] ++
        (dmap_record_to_bytes cxRecord).take 1) =
      .error (.cursorError ((dmap_records_to_bytes [cxRecord]).length + 4)) ∨
    read_records (dmap_records_to_bytes [cxRecord] ++
        (dmap_record_to_bytes cxRecord).take 1) =
      .error (.mismatchByte ((dmap_records_to_bytes [cxRecord]).length + 4 + 4)) :=
  @c6_truncation_inside_record [cxRecord] cxRecord 1 (by decide) (by decide)
    (by decide) (by decide)

/-- C6 counterexample: the valid two-record buffer decodes to two records;
removing the 42 trailing bytes of its second record (a 1+-byte truncation
of a valid file) decodes SILENTLY to the one-record set — no `SizeMismatch`
or `CursorMismatch` is raised. -/
theorem c6_truncation_counterexample :
    twoRecBuf.length = 84 ∧
    dmapRead twoRecBuf = .ok [revRecord cxRecord, revRecord cxRecord] ∧
    dmapRead (twoRecBuf.take 42) = .ok [revRecord cxRecord] := by decide

/-- C7: whenever a scalar's 1-byte wire type code is the reserved marker
`DMAP = 0`, `read_scalar` does NOT fail with the dedicated reserved-type
error the docstring (and the spec's `InvalidScalarType`) promises: the guard
at io.py:466 compares the registry format STRING against the INT `0`, which
in Python is always `True`, so the reserved branch is dead and the empty
struct format of type 0 escapes as an uncaught `IndexError` instead. -/
theorem c7_reserved_scalar_type {buf : List Nat} {c c1 c2 : Nat}
    {nv tv : DmapVal}
    (hn : read_data buf c ("s") 1 = .ok (nv, c1))
    (ht : read_data buf c1 ("c") 1 = .ok (tv, c2))
    (h0 : tv.asNat = DMAP)
    (hc2 : c2 < buf.length) :
    read_scalar buf c = .error .pyIndexError ∧
    read_scalar buf c ≠ .error (.dmapDataError ("scalar_dmap_type")) := by
  have hreg : DMAP_DATA_TYPES tv.asNat = some (("", 0)) := by
    rw [h0]; rfl
  have hrd : read_data buf c2 ("") 0 = .error .pyIndexError := by
    unfold read_data
    rw [if_neg (not_le.mpr hc2)]
    simp
  have hmain : read_scalar buf c = .error .pyIndexError := by
    unfold read_scalar
    simp only [hn, ht, hreg, pyStrIntNeq, if_true, hrd]
  exact ⟨hmain, by rw [hmain]; decide⟩

/-- C7 witness: the wire bytes name `"x"`, type code `0`, one payload byte. -/
theorem c7_reserved_scalar_type_witness :
    read_scalar [120, 0, 0, 99] 0 = .error .pyIndexError ∧
    read_scalar [120, 0, 0, 99] 0 ≠ .error (.dmapDataError ("scalar_dmap_type")) :=
  @c7_reserved_scalar_type [120, 0, 0, 99] 0 2 3 (.vstr ("x")) (.vchar 0)
    (by decide) (by decide) (by decide) (by decide)

/-- C8: after the `block_size` read and its checks pass, `read_record` checks
the 4-byte `num_scalars` and `num_arrays` each strictly positive (zero →
`ZeroByteError`, negative → `NegativeByteError`) and their sum at most
`block_size` (else `MismatchByteError`); any record decode that succeeds
therefore had positive counts with `num_scalars + num_arrays ≤ block_size`. -/
theorem c8_header_checks {buf : List Nat} {c : Nat} {bs ns na : Int}
    (hbv : read_data buf (c + 4) ("i") 4 = .ok (.vint bs, c + 8))
    (hbc : bs ≤ (buf.length : Int) - ((c + 8 : Nat) : Int) + 8)
    (hbs0 : 0 < bs)
    (hns : read_data buf (c + 8) ("i") 4 = .ok (.vint ns, c + 12))
    (hna : read_data buf (c + 12) ("i") 4 = .ok (.vint na, c + 16)) :
    (ns = 0 → read_record buf c = .error (.zeroByte (c + 16))) ∧
    (ns < 0 → read_record buf c = .error (.negativeByte (c + 16))) ∧
    (0 < ns → na = 0 → read_record buf c = .error (.zeroByte (c + 16))) ∧
    (0 < ns → na < 0 → read_record buf c = .error (.negativeByte (c + 16))) ∧
    (0 < ns → 0 < na → bs < ns + na →
      read_record buf c = .error (.mismatchByte (c + 16))) ∧
    (∀ r, read_record buf c = .ok r → 0 < ns ∧ 0 < na ∧ ns + na ≤ bs) := by
  have hzn_pos : ∀ x : Int, 0 < x → ∀ cc : Nat,
      zero_negative_check x cc = .ok () := by
    intro x hx cc
    simp only [zero_negative_check,
      if_neg (show ¬ x = 0 by omega), if_neg (show ¬ x < 0 by omega)]
  have hzn_zero : ∀ cc : Nat,
      zero_negative_check 0 cc = .error (.zeroByte cc) := by
    intro cc
    simp [zero_negative_check]
  have hzn_neg : ∀ x : Int, x < 0 → ∀ cc : Nat,
      zero_negative_check x cc = .error (.negativeByte cc) := by
    intro x hx cc
    simp only [zero_negative_check, if_neg (show ¬ x = 0 by omega), if_pos hx]
  have hbc_le : ∀ a b : Int, a ≤ b → ∀ cc : Nat,
      bytes_check a b cc = .ok () := by
    intro a b hab cc
    simp only [bytes_check, if_neg (show ¬ a > b by omega)]
  have hbc_gt : ∀ a b : Int, b < a → ∀ cc : Nat,
      bytes_check a b cc = .error (.mismatchByte cc) := by
    intro a b hab cc
    simp only [bytes_check, if_pos (show a > b from hab)]
  have e1 : bytes_check bs ((buf.length : Int) - ((c + 8 : Nat) : Int) + 8)
      (c + 8) = .ok () := hbc_le _ _ hbc _
  have e2 : zero_negative_check bs (c + 8) = .ok () := hzn_pos _ hbs0 _
  have hbase : read_record buf c =
      (match zero_negative_check ns (c + 16) with
       | .error e => .error e
       | .ok _ =>
         match zero_negative_check na (c + 16) with
         | .error e => .error e
         | .ok _ =>
           match bytes_check (ns + na) bs (c + 16) with
           | .error e => .error e
           | .ok _ =>
             match readScalarLoop buf ns.toNat (c + 16) [] with
             | .error e => .error e
             | .ok (rec, c4) =>
               match readArrayLoop buf bs na.toNat c4 rec with
               | .error e => .error e
               | .ok (rec2, c5) =>
                 if ((c5 : Int) - (c : Int)) ≠ bs then .error (.cursorError c5)
                 else .ok (rec2, c5)) := by
    unfold read_record
    simp only [hbv, DmapVal.asInt, e1, e2, hns, hna]
  refine ⟨?_, ?_, ?_, ?_, ?_, ?_⟩
  · intro h
    simp only [hbase, h, hzn_zero]
  · intro h
    simp only [hbase, hzn_neg ns h (c + 16)]
  · intro h1 h2
    simp only [hbase, hzn_pos ns h1 (c + 16), h2, hzn_zero]
  · intro h1 h2
    simp only [hbase, hzn_pos ns h1 (c + 16), hzn_neg na h2 (c + 16)]
  · intro h1 h2 h3
    simp only [hbase, hzn_pos ns h1 (c + 16), hzn_pos na h2 (c + 16),
      hbc_gt (ns + na) bs h3 (c + 16)]
  · intro r hr
    rw [hbase] at hr
    rcases lt_trichotomy ns 0 with h1 | h1 | h1
    · rw [hzn_neg ns h1 (c + 16)] at hr
      exact absurd hr (by simp)
    · rw [h1, hzn_zero (c + 16)] at hr
      exact absurd hr (by simp)
    · rw [hzn_pos ns h1 (c + 16)] at hr
      rcases lt_trichotomy na 0 with h2 | h2 | h2
      · rw [hzn_neg na h2 (c + 16)] at hr
        exact absurd hr (by simp)
      · rw [h2, hzn_zero (c + 16)] at hr
        exact absurd hr (by simp)
      · rw [hzn_pos na h2 (c + 16)] at hr
        by_cases h3 : ns + na ≤ bs
        · exact ⟨h1, h2, h3⟩
        · rw [hbc_gt (ns + na) bs (by omega) (c + 16)] at hr
          exact absurd hr (by simp)

/-- C8 witness: a 16-byte header with `block_size = 8`, `num_scalars = 0`,
`num_arrays = 1` exercises every conjunct; the zero scalar count makes
`read_record` fail with `ZeroByteError` at offset 16. -/
theorem c8_header_checks_witness :
    (((0 : Int) = 0 → read_record c8buf 0 = .error (.zeroByte (0 + 16))) ∧
     ((0 : Int) < 0 → read_record c8buf 0 = .error (.negativeByte (0 + 16))) ∧
     ((0 : Int) < (0 : Int) → (1 : Int) = 0 →
       read_record c8buf 0 = .error (.zeroByte (0 + 16))) ∧
     ((0 : Int) < (0 : Int) → (1 : Int) < 0 →
       read_record c8buf 0 = .error (.negativeByte (0 + 16))) ∧
     ((0 : Int) < (0 : Int) → (0 : Int) < (1 : Int) → (8 : Int) < 0 + 1 →
       read_record c8buf 0 = .error (.mismatchByte (0 + 16))) ∧
     (∀ r, read_record c8buf 0 = .ok r →
       (0 : Int) < 0 ∧ (0 : Int) < 1 ∧ (0 : Int) + 1 ≤ 8)) ∧
    read_record c8buf 0 = .error (.zeroByte 16) := by
  have h := @c8_header_checks c8buf 0 8 0 1
    (by decide) (by decide) (by decide) (by decide) (by decide)
  exact ⟨h, by decide⟩

/-- C9: once the header reads and checks pass and both element loops return,
`read_record` compares the cursor advance from the record's start against
`block_size`: on any difference it fails with `CursorError` and returns no
record; when the advance is exactly `block_size` it returns the decoded
record at that cursor. -/
theorem c9_cursor_advance {buf : List Nat} {c c4 c5 : Nat} {bs ns na : Int}
    {rec rec2 : DmapRecord}
    (hbv : read_data buf (c + 4) ("i") 4 = .ok (.vint bs, c + 8))
    (hbc : bs ≤ (buf.length : Int) - ((c + 8 : Nat) : Int) + 8)
    (hbs0 : 0 < bs)
    (hns : read_data buf (c + 8) ("i") 4 = .ok (.vint ns, c + 12))
    (hna : read_data buf (c + 12) ("i") 4 = .ok (.vint na, c + 16))
    (hns0 : 0 < ns) (hna0 : 0 < na) (hsum : ns + na ≤ bs)
    (hsl : readScalarLoop buf ns.toNat (c + 16) [] = .ok (rec, c4))
    (hal : readArrayLoop buf bs na.toNat c4 rec = .ok (rec2, c5)) :
    (((c5 : Int) - (c : Int)) ≠ bs →
      read_record buf c = .error (.cursorError c5)) ∧
    (((c5 : Int) - (c : Int)) = bs →
      read_record buf c = .ok (rec2, c5)) := by
  have e1 : bytes_check bs ((buf.length : Int) - ((c + 8 : Nat) : Int) + 8)
      (c + 8) = .ok () := by
    simp only [bytes_check,
      if_neg (show ¬ bs > (buf.length : Int) - ((c + 8 : Nat) : Int) + 8 by
        omega)]
  have e2 : zero_negative_check bs (c + 8) = .ok () := by
    simp only [zero_negative_check,
      if_neg (show ¬ bs = 0 by omega), if_neg (show ¬ bs < 0 by omega)]
  have e3 : zero_negative_check ns (c + 16) = .ok () := by
    simp only [zero_negative_check,
      if_neg (show ¬ ns = 0 by omega), if_neg (show ¬ ns < 0 by omega)]
  have e4 : zero_negative_check na (c + 16) = .ok () := by
    simp only [zero_negative_check,
      if_neg (show ¬ na = 0 by omega), if_neg (show ¬ na < 0 by omega)]
  have e5 : bytes_check (ns + na) bs (c + 16) = .ok () := by
    simp only [bytes_check, if_neg (show ¬ ns + na > bs by omega)]
  have hbase : read_record buf c =
      (if ((c5 : Int) - (c : Int)) ≠ bs then .error (.cursorError c5)
       else .ok (rec2, c5)) := by
    unfold read_record
    simp only [hbv, DmapVal.asInt, e1, e2, hns, hna, e3, e4, e5, hsl, hal]
  constructor
  · intro h
    rw [hbase, if_pos h]
  · intro h
    rw [hbase, if_neg (show ¬ ((c5 : Int) - (c : Int)) ≠ bs from fun hh => hh h)]

/-- C9 witness: the single-record buffer `cxBuf` (block_size 42, one scalar,
one array) has its loops end at cursor 42 = 0 + block_size, so `read_record`
returns the record; the cursor-advance guard is instantiated concretely. -/
theorem c9_cursor_advance_witness :
    ((((42 : Nat) : Int) - ((0 : Nat) : Int) ≠ (42 : Int) →
      read_record cxBuf 0 = .error (.cursorError 42)) ∧
     (((42 : Nat) : Int) - ((0 : Nat) : Int) = (42 : Int) →
      read_record cxBuf 0 =
        .ok ([DmapField.scalar ⟨("st"), .vint 7, 2, ("h")⟩,
              DmapField.array ⟨("da"), .cells [5, 6], 2, ("h"), 2, [2, 1]⟩], 42))) ∧
    read_record cxBuf 0 =
      .ok ([DmapField.scalar ⟨("st"), .vint 7, 2, ("h")⟩,
            DmapField.array ⟨("da"), .cells [5, 6], 2, ("h"), 2, [2, 1]⟩], 42) := by
  have h := @c9_cursor_advance cxBuf 0 22 42 42 1 1
    [DmapField.scalar ⟨("st"), .vint 7, 2, ("h")⟩]
    [DmapField.scalar ⟨("st"), .vint 7, 2, ("h")⟩,
     DmapField.array ⟨("da"), .cells [5, 6], 2, ("h"), 2, [2, 1]⟩]
    (by decide) (by decide) (by decide) (by decide) (by decide)
    (by decide) (by decide) (by decide) (by decide) (by decide)
  exact ⟨h, h.2 (by decide)⟩

/-- A group's keys are contained in the union `dict_list2set` takes. -/
theorem subset_dict_list2set {fs : Schema} {l : List Schema} (h : fs ∈ l) :
    schemaKeys fs ⊆ dict_list2set l := by
  induction l with
  | nil => cases h
  | cons g l ih =>
    rcases List.mem_cons.mp h with h | h
    · subst h
      unfold dict_list2set
      simp only [List.map_cons, List.foldr_cons]
      exact Finset.subset_union_left
    · unfold dict_list2set
      simp only [List.map_cons, List.foldr_cons]
      exact (ih h).trans Finset.subset_union_right

/-- A fold that either skips a group or unions in its difference equals the
union over the groups that are not skipped. -/
theorem foldl_union_filter (D : Schema → Finset String)
    (P : Schema → Prop) [DecidablePred P] (l : List Schema) : ∀ a : Finset String,
    l.foldl (fun acc fs => if P fs then acc else acc ∪ D fs) a =
    a ∪ ((l.filter (fun fs => !(decide (P fs)))).foldr
      (fun fs acc => D fs ∪ acc) ∅) := by
  induction l with
  | nil =>
    intro a
    simp
  | cons fs l ih =>
    intro a
    by_cases h : P fs
    · simp only [List.foldl_cons, if_pos h, List.filter_cons, decide_eq_true h,
        Bool.not_true, Bool.false_eq_true, if_false, ih]
    · simp only [List.foldl_cons, if_neg h, List.filter_cons,
        decide_eq_false h, Bool.not_false, if_true, List.foldr_cons, ih,
        Finset.union_assoc]

/-- C4: `missing_field_check` fails with `SuperDARNFieldMissing` carrying
exactly the fields `missingFieldsSpec` computes — the union, over the groups
whose difference against (record keys ∩ complete set) is neither empty nor
the whole group, of those differences — and succeeds when that set is empty;
in particular a record in which every group is fully present or fully absent
passes the check. -/
theorem c4_missing_field_rule (l : List Schema) (record : DmapRecord)
    (rec_num : Nat) :
    (missing_field_check l record rec_num =
      if missingFieldsSpec l record = ∅ then .ok ()
      else .error (.fieldMissing rec_num (missingFieldsSpec l record))) ∧
    ((∀ fs ∈ l, schemaKeys fs ⊆ recordKeys record ∨
        schemaKeys fs ∩ recordKeys record = ∅) →
      missing_field_check l record rec_num = .ok ()) := by
  have hdiff : ∀ fs ∈ l,
      ((schemaKeys fs \ (recordKeys record ∩ dict_list2set l)).card = 0 ∨
       (schemaKeys fs \ (recordKeys record ∩ dict_list2set l)).card =
         (schemaKeys fs).card) ↔
      ((schemaKeys fs \ (recordKeys record ∩ dict_list2set l)) = ∅ ∨
       (schemaKeys fs \ (recordKeys record ∩ dict_list2set l)) =
         schemaKeys fs) := by
    intro fs _
    constructor
    · rintro (h | h)
      · exact Or.inl (Finset.card_eq_zero.mp h)
      · exact Or.inr (Finset.eq_of_subset_of_card_le Finset.sdiff_subset
          (le_of_eq h.symm))
    · rintro (h | h)
      · exact Or.inl (by rw [h]; rfl)
      · exact Or.inr (by rw [h])
  have hmain : missing_field_check l record rec_num =
      if missingFieldsSpec l record = ∅ then .ok ()
      else .error (.fieldMissing rec_num (missingFieldsSpec l record)) := by
    unfold missing_field_check missingFieldsSpec
    dsimp only
    simp only [dict_key_diff]
    have hfold := foldl_union_filter
      (fun fs => schemaKeys fs \ (recordKeys record ∩ dict_list2set l))
      (fun fs => (schemaKeys fs \ (recordKeys record ∩ dict_list2set l)).card = 0 ∨
        (schemaKeys fs \ (recordKeys record ∩ dict_list2set l)).card =
          (schemaKeys fs).card) l ∅
    have hfilter : l.filter (fun fs => !(decide
        ((schemaKeys fs \ (recordKeys record ∩ dict_list2set l)).card = 0 ∨
         (schemaKeys fs \ (recordKeys record ∩ dict_list2set l)).card =
           (schemaKeys fs).card))) =
        l.filter (fun fs => !(decide
          ((schemaKeys fs \ (recordKeys record ∩ dict_list2set l)) = ∅) ||
          decide ((schemaKeys fs \ (recordKeys record ∩ dict_list2set l)) =
            schemaKeys fs))) := by
      apply List.filter_congr
      intro fs hfs
      have := hdiff fs hfs
      rcases Decidable.em ((schemaKeys fs \ (recordKeys record ∩ dict_list2set l)) = ∅ ∨
          (schemaKeys fs \ (recordKeys record ∩ dict_list2set l)) = schemaKeys fs) with h | h
      · rw [decide_eq_true (this.mpr h)]
        rcases h with h | h
        · rw [decide_eq_true h, Bool.true_or]
        · rw [decide_eq_true h, Bool.or_true]
      · rw [decide_eq_false (fun hh => h (this.mp hh))]
        rw [decide_eq_false (fun hh => h (Or.inl hh)),
          decide_eq_false (fun hh => h (Or.inr hh))]
        rfl
    rw [hfold, hfilter, Finset.empty_union]
    by_cases hzero : ((l.filter (fun fs => !(decide
        ((schemaKeys fs \ (recordKeys record ∩ dict_list2set l)) = ∅) ||
        decide ((schemaKeys fs \ (recordKeys record ∩ dict_list2set l)) =
          schemaKeys fs)))).foldr
        (fun fs acc => (schemaKeys fs \ (recordKeys record ∩ dict_list2set l)) ∪ acc)
        ∅) = ∅
    · rw [if_pos hzero, if_neg (by rw [hzero]; simp)]
    · rw [if_neg hzero, if_pos (Finset.card_pos.mpr
        (Finset.nonempty_iff_ne_empty.mpr hzero))]
  refine ⟨hmain, ?_⟩
  intro hfull
  rw [hmain]
  have hspec : missingFieldsSpec l record = ∅ := by
    unfold missingFieldsSpec
    dsimp only
    have hnil : l.filter (fun fs => !(decide
        ((schemaKeys fs \ (recordKeys record ∩ dict_list2set l)) = ∅) ||
        decide ((schemaKeys fs \ (recordKeys record ∩ dict_list2set l)) =
          schemaKeys fs))) = [] := by
      rw [List.filter_eq_nil_iff]
      intro fs hfs
      rcases hfull fs hfs with h | h
      · have hsub : schemaKeys fs ⊆ recordKeys record ∩ dict_list2set l :=
          Finset.subset_inter h (subset_dict_list2set hfs)
        rw [decide_eq_true (Finset.sdiff_eq_empty_iff_subset.mpr hsub)]
        simp
      · have hdisj : Disjoint (schemaKeys fs)
            (recordKeys record ∩ dict_list2set l) :=
          Finset.disjoint_of_subset_right Finset.inter_subset_left
            (Finset.disjoint_iff_inter_eq_empty.mpr h)
        rw [decide_eq_true (Finset.sdiff_eq_self_iff_disjoint.mpr hdisj)]
        simp
    rw [hnil]
    rfl
  rw [if_pos hspec]

/-- C4 witness: a schema of two groups checked against a record holding
exactly the first group — fully present plus fully absent — passes the
missing-field check. -/
theorem c4_missing_field_rule_witness :
    ((missing_field_check c4schema c4record 3 =
       if missingFieldsSpec c4schema c4record = ∅ then .ok ()
       else .error (.fieldMissing 3 (missingFieldsSpec c4schema c4record))) ∧
     ((∀ fs ∈ c4schema, schemaKeys fs ⊆ recordKeys c4record ∨
         schemaKeys fs ∩ recordKeys c4record = ∅) →
       missing_field_check c4schema c4record 3 = .ok ())) ∧
    missing_field_check c4schema c4record 3 = .ok () := by
  have h := c4_missing_field_rule c4schema c4record 3
  exact ⟨h, h.2 (by decide)⟩

/-- C10: `write_dmap_stream` adopts its argument only when the instance's
record list is empty — a non-empty instance list makes it encode the
instance's records and ignore the argument — while `write_rawacf_stream`
has the opposite convention: a non-empty argument replaces the instance's
records and is what the schema-validated encoding runs on. -/
theorem c10_stream_argument_semantics :
    (∀ instRecs argRecs : List DmapRecord, instRecs ≠ [] →
      write_dmap_stream instRecs argRecs =
        .ok (dmap_records_to_bytes instRecs)) ∧
    (∀ argRecs : List DmapRecord, argRecs ≠ [] →
      write_dmap_stream [] argRecs = .ok (dmap_records_to_bytes argRecs)) ∧
    (∀ (T : Schema) (instRecs argRecs : List DmapRecord), argRecs ≠ [] →
      write_rawacf_stream T instRecs argRecs =
        superDARN_file_structure_to_bytes [T] argRecs 0) := by
  refine ⟨?_, ?_, ?_⟩
  · intro instRecs argRecs h
    unfold write_dmap_stream
    dsimp only
    rw [if_neg h, if_neg h]
  · intro argRecs h
    unfold write_dmap_stream
    dsimp only
    rw [if_pos rfl, if_neg h]
  · intro T instRecs argRecs h
    unfold write_rawacf_stream
    dsimp only
    rw [if_pos h, if_neg h]

/-- C10 witness: with a non-empty instance list, `write_dmap_stream` encodes
the instance's records, not the distinct non-empty argument; an empty
instance list adopts the argument; `write_rawacf_stream` validates and
encodes its non-empty argument. -/
theorem c10_stream_argument_semantics_witness :
    write_dmap_stream [cxRecord] [c1record] =
      .ok (dmap_records_to_bytes [cxRecord]) ∧
    write_dmap_stream [] [c1record] = .ok (dmap_records_to_bytes [c1record]) ∧
    write_rawacf_stream [(("st"), ("h"))] [cxRecord] [c1record] =
      superDARN_file_structure_to_bytes [[(("st"), ("h"))]] [c1record] 0 := by
  have h := c10_stream_argument_semantics
  exact ⟨h.1 [cxRecord] [c1record] (by decide),
    h.2.1 [c1record] (by decide),
    h.2.2 [(("st"), ("h"))] [cxRecord] [c1record] (by decide)⟩

/-- At the head of a well-formed encoded record, the prescan's 4-byte read
at `cursor + 4` returns the record's wire length (its `block_size`). -/
theorem record_head_read {buf : List Nat} {c : Nat} {r : DmapRecord}
    {rest : List Nat}
    (hwf : wfRecord r) (h : buf.drop c = dmap_record_to_bytes r ++ rest) :
    read_data buf (c + 4) ("i") 4 =
      .ok (.vint (((dmap_record_to_bytes r).length : Int)), c + 4 + 4) := by
  obtain ⟨_, _, _, _, _, hsize⟩ := hwf
  have hL := dmap_record_to_bytes_len r
  have e31' : ((2 : Int) ^ (8 * 4 - 1)) = 2147483648 := by norm_num
  obtain ⟨hnb, hsigb⟩ := int_wrap 4
    ((((r.map fieldBytes).flatten).length : Int) + 16) (by norm_num)
    (by rw [e31']; push_cast; omega)
    (by rw [e31']; push_cast; omega)
  have hfull : buf.drop c = packI32 65537 ++
      (packI32 ((((r.map fieldBytes).flatten).length : Int) + 16) ++
        (packI32 ((countScalars r : Int)) ++ (packI32 ((countArrays r : Int)) ++
          (((r.map fieldBytes).flatten) ++ rest)))) := by
    rw [h, dmap_record_to_bytes_decomp]
    simp [List.append_assoc]
  have h2 := drop_at hfull (show c + 4 = c + (packI32 65537).length by
    simp [packI32, toLE_length])
  have hpb : packI32 ((((r.map fieldBytes).flatten).length : Int) + 16) =
      toLE 4 (((((r.map fieldBytes).flatten).length : Int) + 16) %
        ((2 : Int) ^ (8 * 4))).toNat := by
    simp [packI32]
  rw [hpb] at h2
  have hbsread := read_data_int_ok (Or.inr (Or.inl rfl)) (by norm_num) hnb h2
  have hco : ((16 + ((r.map fieldBytes).flatten).length : Nat) : Int) =
      (((r.map fieldBytes).flatten).length : Int) + 16 := by push_cast; ring
  rw [hbsread, hsigb, hL, hco]

/-- `read_data` never raises the validator's `DmapDataError`. -/
theorem read_data_error_kind {buf : List Nat} {c : Nat} {fmt : String}
    {w : Nat} {m : String} :
    read_data buf c fmt w ≠ .error (.dmapDataError m) := by
  intro hcon
  unfold read_data at hcon
  by_cases h1 : buf.length ≤ c
  · rw [if_pos h1] at hcon; simp at hcon
  rw [if_neg h1] at hcon
  by_cases h2 : buf.length - c < w
  · rw [if_pos h2] at hcon; simp at hcon
  rw [if_neg h2] at hcon
  by_cases h3 : fmt = ("c")
  · rw [if_pos h3] at hcon; simp at hcon
  rw [if_neg h3] at hcon
  by_cases h4 : fmt = ("s")
  · rw [if_pos h4] at hcon
    cases hfz : findZero (buf.drop c) with
    | none => rw [hfz] at hcon; simp at hcon
    | some k =>
      rw [hfz] at hcon
      dsimp only at hcon
      by_cases h5 : buf.length < c + k
      · rw [if_pos h5] at hcon; simp at hcon
      · rw [if_neg h5] at hcon; simp at hcon
  rw [if_neg h4] at hcon
  by_cases h6 : fmt = ("h") ∨ fmt = ("i") ∨ fmt = ("q")
  · rw [if_pos h6] at hcon; simp at hcon
  rw [if_neg h6] at hcon
  by_cases h7 : fmt = ("f") ∨ fmt = ("d")
  · rw [if_pos h7] at hcon; simp at hcon
  rw [if_neg h7] at hcon
  by_cases h8 : fmt = ("B") ∨ fmt = ("H") ∨ fmt = ("I") ∨ fmt = ("Q")
  · rw [if_pos h8] at hcon; simp at hcon
  · rw [if_neg h8] at hcon; simp at hcon

/-- `zero_negative_check` raises only the zero/negative byte errors. -/
theorem zero_negative_check_kind {x : Int} {cc : Nat} {m : String} :
    zero_negative_check x cc ≠ .error (.dmapDataError m) := by
  unfold zero_negative_check
  by_cases h1 : x = 0
  · rw [if_pos h1]; simp
  rw [if_neg h1]
  by_cases h2 : x < 0
  · rw [if_pos h2]; simp
  · rw [if_neg h2]; simp

/-- `bytes_check` raises only `MismatchByteError`. -/
theorem bytes_check_kind {a b : Int} {cc : Nat} {m : String} :
    bytes_check a b cc ≠ .error (.dmapDataError m) := by
  unfold bytes_check
  by_cases h : a > b
  · rw [if_pos h]; simp
  · rw [if_neg h]; simp

/-- A successful `bytes_check` certifies the bound. -/
theorem bytes_check_ok {a b : Int} {cc : Nat} {u : Unit}
    (h : bytes_check a b cc = .ok u) : a ≤ b := by
  unfold bytes_check at h
  by_cases hab : a > b
  · rw [if_pos hab] at h; simp at h
  · omega

/-- A successful 4-byte `i` read advances the cursor by exactly 4. -/
theorem read_data_i_cursor {buf : List Nat} {c c1 : Nat} {v : DmapVal}
    (h : read_data buf c ("i") 4 = .ok (v, c1)) : c1 = c + 4 := by
  unfold read_data at h
  by_cases h1 : buf.length ≤ c
  · rw [if_pos h1] at h; simp at h
  rw [if_neg h1] at h
  by_cases h2 : buf.length - c < 4
  · rw [if_pos h2] at h; simp at h
  rw [if_neg h2] at h
  rw [if_neg (by decide), if_neg (by decide), if_pos (by decide)] at h
  simp only [Except.ok.injEq, Prod.mk.injEq] at h
  exact h.2.symm

/-- Prescan invariant: starting with the cursor equal to the accumulated
total and the total within the buffer, any total the walk returns equals the
buffer length — which is why the `CorruptFile` branch after it cannot
fire. -/
theorem prescanAux_ok_total {buf : List Nat} : ∀ (fuel c total t' c' : Nat),
    c = total → total ≤ buf.length →
    prescanAux buf fuel c total = .ok (t', c') → t' = buf.length := by
  intro fuel
  induction fuel with
  | zero =>
    intro c total t' c' h1 h2 h
    rw [prescanAux] at h
    simp at h
  | succ fuel ih =>
    intro c total t' c' h1 h2 h
    rw [prescanAux] at h
    by_cases hc : c < buf.length
    · rw [if_pos hc] at h
      cases hrd : read_data buf (c + 4) ("i") 4 with
      | error e => rw [hrd] at h; simp at h
      | ok vc =>
        obtain ⟨v, c1⟩ := vc
        have hc1 : c1 = c + 4 + 4 := read_data_i_cursor hrd
        rw [hrd] at h
        dsimp only at h
        cases hzn : zero_negative_check v.asInt c1 with
        | error e => rw [hzn] at h; simp at h
        | ok u =>
          rw [hzn] at h
          dsimp only at h
          cases hbc : bytes_check ((total + v.asInt.toNat : Nat) : Int)
              ((buf.length : Nat) : Int) c1 with
          | error e => rw [hbc] at h; simp at h
          | ok u2 =>
            rw [hbc] at h
            have hle : total + v.asInt.toNat ≤ buf.length := by
              have := bytes_check_ok hbc
              omega
            exact ih (c1 + v.asInt.toNat - 8) (total + v.asInt.toNat) t' c'
              (by omega) hle h
    · rw [if_neg hc] at h
      simp only [Except.ok.injEq, Prod.mk.injEq] at h
      omega
/-- The prescan walk can only fail with a read, zero/negative or mismatch
error — never with the `CorruptFile`-style `DmapDataError`. -/
theorem prescanAux_no_corrupt {buf : List Nat} {m : String} :
    ∀ (fuel c total : Nat),
      prescanAux buf fuel c total ≠ .error (.dmapDataError m) := by
  intro fuel
  induction fuel with
  | zero =>
    intro c total h
    rw [prescanAux] at h
    simp at h
  | succ fuel ih =>
    intro c total h
    rw [prescanAux] at h
    by_cases hc : c < buf.length
    · rw [if_pos hc] at h
      cases hrd : read_data buf (c + 4) ("i") 4 with
      | error e =>
        rw [hrd] at h
        dsimp only at h
        have he : e = .dmapDataError m := by simpa using h
        exact read_data_error_kind (he ▸ hrd)
      | ok vc =>
        obtain ⟨v, c1⟩ := vc
        rw [hrd] at h
        dsimp only at h
        cases hzn : zero_negative_check v.asInt c1 with
        | error e =>
          rw [hzn] at h
          dsimp only at h
          have he : e = .dmapDataError m := by simpa using h
          exact zero_negative_check_kind (he ▸ hzn)
        | ok u =>
          rw [hzn] at h
          dsimp only at h
          cases hbc : bytes_check ((total + v.asInt.toNat : Nat) : Int)
              ((buf.length : Nat) : Int) c1 with
          | error e =>
            rw [hbc] at h
            dsimp only at h
            have he : e = .dmapDataError m := by simpa using h
            exact bytes_check_kind (he ▸ hbc)
          | ok u2 =>
            rw [hbc] at h
            exact ih (c1 + v.asInt.toNat - 8) (total + v.asInt.toNat) h
    · rw [if_neg hc] at h
      simp at h

/-- Over a concatenation of well-formed encoded records the prescan walk
succeeds, accumulating exactly the buffer length. -/
theorem prescanAux_walk {buf : List Nat} :
    ∀ (recs : List DmapRecord) (c total fuel : Nat),
      (∀ r ∈ recs, wfRecord r) →
      buf.drop c = (recs.map dmap_record_to_bytes).flatten →
      c = total →
      buf.length = c + ((recs.map dmap_record_to_bytes).flatten).length →
      recs.length < fuel →
      prescanAux buf fuel c total = .ok (buf.length, buf.length) := by
  intro recs
  induction recs with
  | nil =>
    intro c total fuel hwf hdrop hct hlen hfuel
    obtain ⟨f, rfl⟩ : ∃ f, fuel = f + 1 := ⟨fuel - 1, by omega⟩
    simp only [List.map_nil, List.flatten_nil, List.length_nil,
      Nat.add_zero] at hlen
    rw [prescanAux, if_neg (show ¬ c < buf.length by omega)]
    subst hct
    rw [hlen]
  | cons r rs ih =>
    intro c total fuel hwf hdrop hct hlen hfuel
    obtain ⟨f, rfl⟩ : ∃ f, fuel = f + 1 := ⟨fuel - 1, by omega⟩
    have hdrop' : buf.drop c = dmap_record_to_bytes r ++
        (rs.map dmap_record_to_bytes).flatten := by
      simpa using hdrop
    have hwfr : wfRecord r := hwf r (by simp)
    have hhead := record_head_read hwfr hdrop'
    have hRpos := record_bytes_pos r
    simp only [List.map_cons, List.flatten_cons, List.length_append] at hlen
    have hzn : zero_negative_check
        (((dmap_record_to_bytes r).length : Int)) (c + 4 + 4) = .ok () := by
      unfold zero_negative_check
      rw [if_neg (by omega : ¬ ((dmap_record_to_bytes r).length : Int) = 0),
        if_neg (by omega : ¬ ((dmap_record_to_bytes r).length : Int) < 0)]
    have hbc : bytes_check
        ((total + (dmap_record_to_bytes r).length : Nat) : Int)
        ((buf.length : Nat) : Int) (c + 4 + 4) = .ok () := by
      unfold bytes_check
      rw [if_neg (by omega :
        ¬ ((total + (dmap_record_to_bytes r).length : Nat) : Int) >
          ((buf.length : Nat) : Int))]
    rw [prescanAux, if_pos (show c < buf.length by omega)]
    simp only [hhead, DmapVal.asInt, Int.toNat_natCast, hzn, hbc]
    rw [show c + 4 + 4 + (dmap_record_to_bytes r).length - 8 =
      c + (dmap_record_to_bytes r).length by omega]
    exact ih (c + (dmap_record_to_bytes r).length)
      (total + (dmap_record_to_bytes r).length) f
      (fun q hq => hwf q (by simp [hq]))
      (drop_at hdrop' rfl)
      (by omega)
      (by omega)
      (by simp at hfuel; omega)

/-- C5 (amended): the prescan fails with `CursorError` whenever it starts
off offset 0; over a buffer of concatenated well-formed encoded records
started at 0 it succeeds; but NO input makes it fail with the `CorruptFile`
error the spec names — the per-step `MismatchByteError` bound plus the
cursor-equals-total invariant make the final total always equal the buffer
length, so the corrupt-total branch is unreachable (a corrupted
`block_size` fails earlier with `MismatchByteError`; see the
counterexample). -/
theorem c5_prescan {recs : List DmapRecord}
    (hwf : ∀ r ∈ recs, wfRecord r) :
    (∀ (buf : List Nat) (cursor : Nat), cursor ≠ 0 →
      test_initial_data_integrity buf cursor = .error (.cursorError cursor)) ∧
    (test_initial_data_integrity (dmap_records_to_bytes recs) 0 = .ok ()) ∧
    (∀ (buf : List Nat) (cursor : Nat),
      test_initial_data_integrity buf cursor ≠
        .error (.dmapDataError ("corrupt_total_mismatch"))) := by
  refine ⟨?_, ?_, ?_⟩
  · intro buf cursor h
    unfold test_initial_data_integrity
    rw [if_pos h]
  · unfold test_initial_data_integrity
    rw [if_neg (by simp)]
    have hwalk := @prescanAux_walk (dmap_records_to_bytes recs) recs 0 0
      ((dmap_records_to_bytes recs).length + 1) hwf
      (by rw [List.drop_zero]; rfl)
      rfl
      (by rw [Nat.zero_add]; rfl)
      (by
        have := records_count_le recs
        exact Nat.lt_succ_of_le this)
    simp only [hwalk]
    rw [if_neg (by simp)]
  · intro buf cursor h
    unfold test_initial_data_integrity at h
    by_cases hcur : cursor ≠ 0
    · rw [if_pos hcur] at h
      simp at h
    · rw [if_neg hcur] at h
      cases hp : prescanAux buf (buf.length + 1) 0 0 with
      | error e =>
        rw [hp] at h
        dsimp only at h
        have he : e = .dmapDataError ("corrupt_total_mismatch") := by
          simpa using h
        exact prescanAux_no_corrupt (buf.length + 1) 0 0 (he ▸ hp)
      | ok tc =>
        obtain ⟨t, cc⟩ := tc
        rw [hp] at h
        dsimp only at h
        have ht : t = buf.length :=
          prescanAux_ok_total (buf.length + 1) 0 0 t cc rfl (Nat.zero_le _) hp
        rw [if_neg (by omega)] at h
        simp at h

/-- C5 witness: the cursor guard, the success over the two-record
concatenation, and the global unreachability of the corrupt-total error,
instantiated at the two-record buffer; plus the concrete guard firing at
cursor 5. -/
theorem c5_prescan_witness :
    ((∀ (buf : List Nat) (cursor : Nat), cursor ≠ 0 →
       test_initial_data_integrity buf cursor = .error (.cursorError cursor)) ∧
     (test_initial_data_integrity (dmap_records_to_bytes [cxRecord, cxRecord]) 0 =
       .ok ()) ∧
     (∀ (buf : List Nat) (cursor : Nat),
       test_initial_data_integrity buf cursor ≠
         .error (.dmapDataError ("corrupt_total_mismatch")))) ∧
    test_initial_data_integrity twoRecBuf 5 = .error (.cursorError 5) := by
  have h := @c5_prescan [cxRecord, cxRecord] (by decide)
  exact ⟨h, by decide⟩

/-- C5 counterexample: corrupting the first record's `block_size` by +1 in
the valid two-record buffer makes the prescan fail with
`MismatchByteError` at offset 51 — NOT with the `CorruptFile` error the
spec promises for a total mismatch. -/
theorem c5_prescan_counterexample :
    test_initial_data_integrity corruptBuf 0 = .error (.mismatchByte 51) ∧
    test_initial_data_integrity corruptBuf 0 ≠
      .error (.dmapDataError ("corrupt_total_mismatch")) := by decide
